import Mathlib

/-!
# Verification of golog: leveled logging with size-based rotation

A shallow embedding of the golog library (logger.go, rotator, formatter)
into Lean 4, together with theorems settling the specification claims.

Go `map[string]interface{}` values are modelled as association lists of
`String × JVal` with unique keys; Go machine integers that matter here
(`int`, `int64`) are modelled as `Int`; fallible operating-system calls
return `Except String` values; a Go runtime panic (index out of range)
is modelled by `Option`, `none` meaning the panic.
-/

set_option maxRecDepth 4096

namespace Golog

/-- Model of `LogLevel` from logger.go: TRACE, DEBUG, INFO, WARN, ERROR, FATAL
(consecutive integer constants starting at 0). -/
inductive LogLevel where
  | TRACE
  | DEBUG
  | INFO
  | WARN
  | ERROR
  | FATAL
deriving DecidableEq, Repr

/-- The underlying integer of a `LogLevel` constant (`iota` order). -/
def LogLevel.toNat : LogLevel → Nat
  | .TRACE => 0
  | .DEBUG => 1
  | .INFO => 2
  | .WARN => 3
  | .ERROR => 4
  | .FATAL => 5

/-- Model of `LogLevel.String()` from logger.go: the name of the level. -/
def LogLevel.str : LogLevel → String
  | .TRACE => "TRACE"
  | .DEBUG => "DEBUG"
  | .INFO => "INFO"
  | .WARN => "WARN"
  | .ERROR => "ERROR"
  | .FATAL => "FATAL"

/-- The comparison `level < l.level` performed by `Logger.log`
(integer comparison on the level constants). -/
def levelLt (a b : LogLevel) : Bool := a.toNat < b.toNat

/-- A Go `interface{}` value as it occurs in log fields: a string, an
integer, or a boolean. -/
inductive JVal where
  | s (v : String)
  | n (v : Int)
  | b (v : Bool)
deriving DecidableEq, Repr

/-- Field maps `map[string]interface{}`, modelled as association lists;
a Go map has unique keys, which theorems assume via `List.Nodup`. -/
abbrev Fields := List (String × JVal)

/-- First-match lookup in an association list (Go map read `m[k]`). -/
def mapGet (m : Fields) (k : String) : Option JVal :=
  match m with
  | [] => none
  | (k', v) :: rest => if k' = k then some v else mapGet rest k

/-- Go map write `m[k] = v`: overwrite the binding of `k` if present,
otherwise append a new binding. -/
def mapInsert (m : Fields) (k : String) (v : JVal) : Fields :=
  match m with
  | [] => [(k, v)]
  | (k', v') :: rest =>
      if k' = k then (k, v) :: rest else (k', v') :: mapInsert rest k v

/-- The keys of an association list. -/
def mapKeys (m : Fields) : List String := m.map Prod.fst

end Golog

namespace Golog

/-! ## JSON serialization (Go `encoding/json.Marshal` of a string-keyed map)

`json.Marshal` of a `map[string]interface{}` emits the keys in sorted
order and escapes control characters inside strings, so its output never
contains a raw newline. The model reproduces exactly the parts the
claims touch: sorted-key emission and newline-free escaping. -/

/-- The newline character. -/
def nl : Char := Char.ofNat 10

/-- The double-quote character. -/
def dq : Char := Char.ofNat 34

/-- The backslash character. -/
def bsl : Char := Char.ofNat 92

/-- JSON string escaping of one character: control characters (newline
among them), the quote and the backslash are replaced by backslash
escapes, every other character stands for itself. -/
def escChar (c : Char) : List Char :=
  if c = nl then [bsl, Char.ofNat 110]
  else if c = dq then [bsl, dq]
  else if c = bsl then [bsl, bsl]
  else if c.toNat < 32 then [bsl, Char.ofNat 117]
  else [c]

/-- JSON string escaping of a character list. -/
def escStr (cs : List Char) : List Char := cs.flatMap escChar

/-- The decimal digit character for `d < 10`. -/
def digitChar (d : Nat) : Char := Char.ofNat (48 + d)

/-- Decimal digits with a structural fuel bound (`n` itself bounds the
number of divisions by ten, so the fuel never runs out for `fuel >= n`). -/
def natDigitsAux : Nat → Nat → List Char
  | 0, n => [digitChar n]
  | fuel + 1, n =>
    if n < 10 then [digitChar n]
    else natDigitsAux fuel (n / 10) ++ [digitChar (n % 10)]

/-- Decimal digits of a natural number, most significant first. -/
def natDigits (n : Nat) : List Char := natDigitsAux n n

/-- Decimal rendering of an integer (a minus sign, then digits). -/
def intDigits (n : Int) : List Char :=
  if n < 0 then Char.ofNat 45 :: natDigits n.natAbs else natDigits n.natAbs

/-- JSON rendering of one value. -/
def renderJVal : JVal → List Char
  | .s v => dq :: escStr v.data ++ [dq]
  | .n v => intDigits v
  | .b true => "true".data
  | .b false => "false".data

/-- JSON rendering of one `"key":value` member. -/
def renderMember (p : String × JVal) : List Char :=
  dq :: escStr p.1.data ++ [dq, Char.ofNat 58] ++ renderJVal p.2

/-- Comma-separated concatenation. -/
def joinComma : List (List Char) → List Char
  | [] => []
  | [x] => x
  | x :: xs => x ++ Char.ofNat 44 :: joinComma xs

/-- Model of `json.Marshal` of a string-keyed map: members sorted by key between
braces. -/
def jsonMarshal (m : Fields) : List Char :=
  let sorted := m.mergeSort (fun a b => a.1 ≤ b.1)
  Char.ofNat 123 :: joinComma (sorted.map renderMember) ++ [Char.ofNat 125]

end Golog

namespace Golog

/-! ## Formatters (Formatter interface with a text and a JSON variant)

Go's `time.Now()` is captured inside `Format`; the model receives the
rendered timestamp as an argument. -/

/-- Rendering of a field value by Go `fmt` verb `%v`. -/
def renderGoVal : JVal → String
  | .s v => v
  | .n v => String.mk (intDigits v)
  | .b true => "true"
  | .b false => "false"

/-- Model of `fmt` rendering `%v` of a `map[string]interface{}`:
`map[k1:v1 k2:v2]` with the keys in sorted order. -/
def renderFieldsGo (fields : Fields) : String :=
  "map[" ++
    String.intercalate " "
      ((fields.mergeSort (fun a b => a.1 ≤ b.1)).map
        (fun p => p.1 ++ ":" ++ renderGoVal p.2)) ++ "]"

/-- Model of `TextFormatter.Format`: `[timestamp] LEVEL message` plus, when the
field map is non-empty, a space and the `%v` rendering of the map, then
a newline. -/
def TextFormatter.Format (ts : String) (level : LogLevel) (msg : String)
    (fields : Fields) : String :=
  let base := "[" ++ ts ++ "] " ++ level.str ++ " " ++ msg
  if fields.length = 0 then base ++ "\n"
  else base ++ " " ++ renderFieldsGo fields ++ "\n"

/-- The `logEntry` map built by `JSONFormatter.Format`: reserved keys
`timestamp`, `level`, `message` first, then every field inserted on top
(a colliding field key overwrites the reserved value). -/
def JSONFormatter.entry (ts : String) (level : LogLevel) (msg : String)
    (fields : Fields) : Fields :=
  fields.foldl (fun m p => mapInsert m p.1 p.2)
    [("timestamp", .s ts), ("level", .s level.str), ("message", .s msg)]

/-- Model of `JSONFormatter.Format`: `json.Marshal` of the entry map followed by
a newline. -/
def JSONFormatter.Format (ts : String) (level : LogLevel) (msg : String)
    (fields : Fields) : String :=
  String.mk (jsonMarshal (JSONFormatter.entry ts level msg fields) ++ [nl])

end Golog

namespace Golog

/-! ## File-system model

Only what the rotation and write paths touch: the file at the base path,
the backup files `basePath.<ts>` / `basePath.<ts>.gz`, and the set of
open handles. Every handle in the program is opened at the base path
with create/append semantics and is closed before the base path is
renamed, so a handle is modelled by its identifier plus an open flag,
and an open handle always reads/appends the base file. `statFails`
injects a transient stat failure (disk error) for the error-path
theorems. -/

/-- A rotated backup file, named `basePath.<ts>` (`gz = false`) or
`basePath.<ts>.gz` (`gz = true`), holding `content` (for a `.gz` file:
the content it decompresses to, empty when the gzip stream was left
incomplete), with modification time `mtime`. -/
structure BackupFile where
  ts : Nat
  gz : Bool
  content : String
  mtime : Nat
deriving DecidableEq, Repr

/-- The file-system state seen by one Logger. -/
structure FS where
  base : Option String
  backups : List BackupFile
  openHandles : List Nat
  nextId : Nat
  statFails : Bool
deriving DecidableEq, Repr

/-- Model of `os.OpenFile(path, O_APPEND|O_CREATE|O_WRONLY, 0644)`: create the
base file if absent and return a fresh open handle on it. -/
def FS.openFileAppend (fs : FS) : FS × Nat :=
  let fs1 := match fs.base with
             | none => { fs with base := some "" }
             | some _ => fs
  ({ fs1 with openHandles := fs1.openHandles ++ [fs1.nextId],
              nextId := fs1.nextId + 1 }, fs1.nextId)

/-- Model of `file.Close()`: closing an already-closed handle returns the
`os.ErrClosed` error. -/
def FS.closeHandle (fs : FS) (h : Nat) : FS × Except String Unit :=
  if h ∈ fs.openHandles then
    ({ fs with openHandles := fs.openHandles.erase h }, .ok ())
  else (fs, .error "file already closed")

/-- Model of `file.Stat().Size()`: the current size of the file the handle is
open on; fails on a closed handle or an injected disk error. -/
def FS.statSize (fs : FS) (h : Nat) : Except String Int :=
  if fs.statFails then .error "input-output error"
  else if h ∈ fs.openHandles then
    match fs.base with
    | some c => .ok (c.length : Int)
    | none => .error "stale handle"
  else .error "file already closed"

/-- Model of `file.WriteString(s)`: append on an open handle; a closed handle
returns the `os.ErrClosed` error and writes nothing. -/
def FS.writeString (fs : FS) (h : Nat) (s : String) : FS × Except String Unit :=
  if h ∈ fs.openHandles then
    match fs.base with
    | some c => ({ fs with base := some (c ++ s) }, .ok ())
    | none => (fs, .error "stale handle")
  else (fs, .error "file already closed")

/-- Model of `os.Rename(basePath, basePath.<ts>)`: move the base file to a
timestamped backup name, silently replacing a same-second backup
(the documented collision policy). The renamed file keeps its data;
its modification time is the rotation instant in this model. -/
def FS.renameToBackup (fs : FS) (ts : Nat) : FS × Except String Unit :=
  match fs.base with
  | none => (fs, .error "no such file")
  | some c =>
      ({ fs with base := none,
                 backups := (fs.backups.filter
                     (fun b => !(b.ts == ts && !b.gz))) ++ [⟨ts, false, c, ts⟩] },
       .ok ())

end Golog

namespace Golog

/-! ## Compression (`compressFile` and the compress branch of rotation)

`compressFile` opens the source, creates `path.gz`, copies through a
gzip writer and returns the copy error; the gzip writer and the output
file are closed by `defer` with their errors discarded. `GzEnv` is the
oracle of which of these operations fail in a given run. -/

/-- Failure oracle for one compression run. -/
structure GzEnv where
  openFails : Bool
  createFails : Bool
  copyFails : Bool
  gzCloseFails : Bool
deriving DecidableEq, Repr

/-- The run in which every operation succeeds. -/
def GzEnv.clean : GzEnv := ⟨false, false, false, false⟩

/-- State of the `.gz` output file after `compressFile`. -/
inductive GzOut where
  | absent
  | incomplete
  | full (src : String)
deriving DecidableEq, Repr

/-- Model of `compressFile(path)`: gzip `src` into `path.gz`. Returns the state
of the `.gz` file and the error `compressFile` reports. When only the
deferred `gz.Close()` flush fails, the reported error is nil although
the compressed file is incomplete (the deferred error is discarded). -/
def compressFile (env : GzEnv) (src : String) : GzOut × Except String Unit :=
  if env.openFails then (.absent, .error "open source failed")
  else if env.createFails then (.absent, .error "create gz failed")
  else if env.copyFails then (.incomplete, .error "copy failed")
  else if env.gzCloseFails then (.incomplete, .ok ())
  else (.full src, .ok ())

/-- Outcome of the compress branch of `RotateIfNeeded` for one source
backup: whether the uncompressed source file still exists, the state of
the `.gz` file, and the error surfaced to the rotation caller. -/
structure CompressOutcome where
  sourceKept : Bool
  gzFile : GzOut
  err : Option String
deriving DecidableEq, Repr

/-- The compress branch of `RotateIfNeeded` (lines 209-215): run
`compressFile(newPath)`; on error, return it (the source stays); on
nil, `os.Remove(newPath)` deletes the uncompressed source. -/
def compressBranch (env : GzEnv) (src : String) : CompressOutcome :=
  match compressFile env src with
  | (gzout, .error e) => ⟨true, gzout, some e⟩
  | (gzout, .ok ()) => ⟨false, gzout, none⟩

end Golog

namespace Golog

/-! ## Rotator -/

/-- Model of `Rotator` from the rotator source: rotation policy plus base path. -/
structure Rotator where
  filePath : String
  maxSize : Int
  maxBackups : Int
  compress : Bool
deriving DecidableEq, Repr

/-- Model of `NewRotator`: `maxSize = maxSizeMB * 1024 * 1024`; `maxBackups` is
stored unchecked. -/
def NewRotator (filePath : String) (maxSizeMB maxBackups : Int)
    (compress : Bool) : Rotator :=
  ⟨filePath, maxSizeMB * 1024 * 1024, maxBackups, compress⟩

/-- The mtime-descending order used by `cleanupBackups`
(`sort.Slice` with `mtime_i.After(mtime_j)`). -/
def sortByMtimeDesc (files : List BackupFile) : List BackupFile :=
  files.mergeSort (fun a b => b.mtime ≤ a.mtime)

/-- Model of `cleanupBackups`: glob `basePath.*` (the `files` argument), return
unchanged if `len(files) <= maxBackups`, otherwise sort descending by
modification time and delete the entries from index `maxBackups` on.
The result is the list of files that remain (the set kept on disk); the
deletion loop `for i := maxBackups; i < len; i++` indexes
`fileInfos[maxBackups]` first, which for a negative `maxBackups` is an
index out of range — a Go runtime panic, modelled as `none`. -/
def cleanupBackups (maxBackups : Int) (files : List BackupFile) :
    Option (List BackupFile) :=
  if (files.length : Int) ≤ maxBackups then some files
  else if maxBackups < 0 then none
  else some ((sortByMtimeDesc files).take maxBackups.toNat)

/-- Model of `Rotator.RotateIfNeeded(file)`, faithful to the source: stat, early
return under the threshold, close, rename to `basePath.<ts>`, optional
compression, retention cleanup, reopen. The reopened handle is assigned
to the local parameter variable and never handed back — only the error
is returned, exactly as in the source. `none` models a panic escaping
from `cleanupBackups`. -/
def Rotator.RotateIfNeeded (r : Rotator) (env : GzEnv) (ts : Nat)
    (fs : FS) (file : Nat) : Option (FS × Except String Unit) :=
  match fs.statSize file with
  | .error e => some (fs, .error ("failed to stat log file: " ++ e))
  | .ok size =>
    if size < r.maxSize then some (fs, .ok ())
    else
      match fs.closeHandle file with
      | (fs1, .error e) => some (fs1, .error ("failed to close log file: " ++ e))
      | (fs1, .ok ()) =>
        match fs1.renameToBackup ts with
        | (fs2, .error e) => some (fs2, .error ("failed to rename log file: " ++ e))
        | (fs2, .ok ()) =>
          match rotCompress r env ts fs2 with
          | (fs3, some e) => some (fs3, .error ("failed to compress log file: " ++ e))
          | (fs3, none) =>
            match cleanupBackups r.maxBackups fs3.backups with
            | none => none
            | some kept =>
              let fs4 := { fs3 with backups := kept }
              let fs5 := (fs4.openFileAppend).1
              some (fs5, .ok ())
where
  /-- The `if r.compress` block: compress the backup created at `ts`;
  on reported success delete the uncompressed source and leave the
  `.gz` file (empty content when the discarded `gz.Close` error hid an
  incomplete stream); on reported failure keep the source and also any
  partially-written `.gz` file. -/
  rotCompress (r : Rotator) (env : GzEnv) (ts : Nat) (fs : FS) :
      FS × Option String :=
    if r.compress then
      match fs.backups.find? (fun b => b.ts == ts && !b.gz) with
      | none => (fs, some "open source failed")
      | some b =>
        match compressBranch env b.content with
        | ⟨true, gzout, some e⟩ =>
          (if gzout = .absent then fs
           else { fs with backups := fs.backups ++ [⟨ts, true, "", ts⟩] }, some e)
        | ⟨_, gzout, none⟩ =>
          ({ fs with
             backups := (fs.backups.filter (fun b => !(b.ts == ts && !b.gz))) ++
               [⟨ts, true, (match gzout with | .full c => c | _ => ""), ts⟩] },
           none)
        | ⟨false, _, some e⟩ => (fs, some e)
    else (fs, none)

end Golog

namespace Golog

/-! ## Logger -/

/-- Model of `Logger` from logger.go. `file` holds the handle identifier opened
at construction (`none` models the nil `*os.File`); the mutex is not a
datum — the sequential functions below execute entirely inside it, and
the interleaving model later makes it explicit. -/
structure Logger where
  level : LogLevel
  isJson : Bool
  file : Option Nat
  filePath : String
  logToFile : Bool
  logToConsole : Bool
  rotator : Option Rotator
deriving DecidableEq, Repr

/-- Model of `Config` from logger.go. -/
structure Config where
  Level : LogLevel
  FilePath : String
  LogToConsole : Bool
  Format : String
  MaxSizeMB : Int
  MaxBackups : Int
  Compress : Bool
deriving DecidableEq, Repr

/-- Model of `NewLogger`: pick the formatter from `Format == "json"`; when
`FilePath` is non-empty, open the file with create/append and build the
Rotator from the configuration, both unchecked. The model keeps only
the success path of the initial open (its failure aborts construction
in Go and reaches none of the claimed behaviour). -/
def NewLogger (config : Config) (fs : FS) : Logger × FS :=
  let lg : Logger :=
    { level := config.Level
      isJson := config.Format == "json"
      file := none
      filePath := ""
      logToFile := config.FilePath ≠ ""
      logToConsole := config.LogToConsole
      rotator := none }
  if config.FilePath ≠ "" then
    let (fs1, h) := fs.openFileAppend
    ({ lg with file := some h, filePath := config.FilePath,
               rotator := some (NewRotator config.FilePath config.MaxSizeMB
                 config.MaxBackups config.Compress) }, fs1)
  else (lg, fs)

/-- Observable actions of one `log` call other than file mutation:
lock/unlock of the mutex, the formatting step, a console write
(`fmt.Print`) and a diagnostic write (`fmt.Fprintf(os.Stderr, ...)`). -/
inductive Event where
  | lock
  | format (line : String)
  | console (line : String)
  | stderr (line : String)
  | unlock
deriving DecidableEq, Repr

/-- The stderr lines among a list of events. -/
def stderrOf (evs : List Event) : List String :=
  evs.filterMap (fun e => match e with | .stderr s => some s | _ => none)

/-- The console lines among a list of events. -/
def consoleOf (evs : List Event) : List String :=
  evs.filterMap (fun e => match e with | .console s => some s | _ => none)

/-- Model of `l.formatter.Format(level, msg, fields)`: dispatch on the formatter
installed at construction. -/
def Logger.Format (l : Logger) (ts : String) (level : LogLevel)
    (msg : String) (fields : Fields) : String :=
  if l.isJson then JSONFormatter.Format ts level msg fields
  else TextFormatter.Format ts level msg fields

/-- Model of `Logger.log(level, msg, fields)`, faithful to logger.go: the level
gate before anything else; then, under the mutex, format, console
write, optional rotation with its error printed to stderr, and the file
write whose error is silently discarded. The logger value itself is
never modified (in particular `l.file` keeps pointing at the handle
closed by a rotation). `none` models a panic escaping from rotation.
`now` is the instant of the call. -/
def Logger.log (l : Logger) (env : GzEnv) (now : Nat) (level : LogLevel)
    (msg : String) (fields : Fields) (fs : FS) : Option (FS × List Event) :=
  if levelLt level l.level then some (fs, [])
  else
    let message := l.Format (String.mk (natDigits now)) level msg fields
    let evs1 := [Event.lock, Event.format message] ++
      (if l.logToConsole then [Event.console message] else [])
    if l.logToFile then
      match l.file with
      | none => some (fs, evs1 ++ [.unlock])
      | some h =>
        match l.rotator with
        | none =>
          let fs2 := (fs.writeString h message).1
          some (fs2, evs1 ++ [.unlock])
        | some r =>
          match r.RotateIfNeeded env now fs h with
          | none => none
          | some (fs1, res) =>
            let evs2 := match res with
              | .error e => evs1 ++ [.stderr ("Failed to rotate log: " ++ e)]
              | .ok () => evs1
            let fs2 := (fs1.writeString h message).1
            some (fs2, evs2 ++ [.unlock])
    else some (fs, evs1 ++ [.unlock])

/-- Model of `Logger.Close()`: under the mutex, close the handle if one is
recorded; the `file` field is NOT cleared, so the logger value is
unchanged and a later `Close` will call `file.Close()` again. -/
def Logger.Close (l : Logger) (fs : FS) : FS × Except String Unit :=
  match l.file with
  | none => (fs, .ok ())
  | some h => fs.closeHandle h

end Golog

namespace Golog

/-! ## Interleaving model of concurrent `log` calls

Multiple callers share one Logger. The sole synchronization is the
Logger's mutex; inside it, one call performs format, rotate-if-needed
and the file write as separate atomic actions on the shared state. A
thread is a queue of calls plus a program counter through the critical
section; a schedule is the sequence of thread identifiers picked by the
scheduler, and a step of a thread performs its next enabled action (a
thread whose action is disabled — waiting on the mutex — does
nothing). Go's one-second timestamp granularity lets a run be modelled
at one instant `now`. -/

/-- One `log` call: its level, message and (already merged) fields. -/
structure Call where
  level : LogLevel
  msg : String
  fields : Fields
deriving DecidableEq, Repr

/-- A caller's position inside `Logger.log`: outside any call, or at
one of the atomic actions of the critical section. The formatted line
of the call in progress is carried along. -/
inductive Phase where
  | idle
  | locked
  | formatted (line : String)
  | rotated (line : String)
  | written (line : String)
deriving DecidableEq, Repr

/-- One concurrent caller: the calls still to issue and its position. -/
structure Thread where
  pending : List Call
  phase : Phase
deriving DecidableEq, Repr

/-- The shared state: the file system, the mutex owner and the callers. -/
structure Sys where
  fs : FS
  owner : Option Nat
  threads : List Thread
deriving DecidableEq, Repr

/-- Context fixed for a whole run: the shared Logger, the compression
oracle and the instant of the run. -/
structure RunCtx where
  lg : Logger
  env : GzEnv
  now : Nat
deriving DecidableEq, Repr

/-- The formatted line of a call executed under context `ctx`. -/
def RunCtx.lineOf (ctx : RunCtx) (c : Call) : String :=
  ctx.lg.Format (String.mk (natDigits ctx.now)) c.level c.msg c.fields

/-- Update of the `t`-th thread. -/
def Sys.setThread (sys : Sys) (t : Nat) (th : Thread) : Sys :=
  { sys with threads := sys.threads.set t th }

/-- One scheduler step of thread `t`: perform its next enabled atomic
action, mirroring `Logger.log` line by line — the admission gate
outside the mutex, then lock, format (with the console write), the
rotation check whose error goes to stderr, the file write with its
error discarded, unlock. A blocked or finished thread leaves the state
unchanged; `none` models a panic escaping from `cleanupBackups`. -/
def threadStep (ctx : RunCtx) (sys : Sys) (t : Nat) : Option Sys :=
  match sys.threads[t]? with
  | none => some sys
  | some th =>
    match th.phase with
    | .idle =>
      match th.pending with
      | [] => some sys
      | c :: rest =>
        if levelLt c.level ctx.lg.level then
          -- level below the minimum: the call returns with no lock, no
          -- formatting, no side effect.
          some (sys.setThread t { th with pending := rest })
        else
          match sys.owner with
          | some _ => some sys   -- mutex held: the caller blocks
          | none => some ({ sys.setThread t { th with phase := .locked }
                            with owner := some t })
    | .locked =>
      match th.pending with
      | [] => some sys   -- unreachable: a locked thread has a current call
      | c :: _ =>
        some (sys.setThread t { th with phase := .formatted (ctx.lineOf c) })
    | .formatted line =>
      if ctx.lg.logToFile then
        match ctx.lg.file with
        | none => some (sys.setThread t { th with phase := .rotated line })
        | some h =>
          match ctx.lg.rotator with
          | none => some (sys.setThread t { th with phase := .rotated line })
          | some r =>
            match r.RotateIfNeeded ctx.env ctx.now sys.fs h with
            | none => none
            | some (fs1, _res) =>
              some ({ sys.setThread t { th with phase := .rotated line }
                      with fs := fs1 })
      else some (sys.setThread t { th with phase := .rotated line })
    | .rotated line =>
      if ctx.lg.logToFile then
        match ctx.lg.file with
        | none => some (sys.setThread t { th with phase := .written line })
        | some h =>
          some ({ sys.setThread t { th with phase := .written line }
                  with fs := (sys.fs.writeString h line).1 })
      else some (sys.setThread t { th with phase := .written line })
    | .written _line =>
      some ({ sys.setThread t { th with pending := th.pending.tail,
                                        phase := .idle }
              with owner := none })

/-- Run a whole schedule. -/
def runSched (ctx : RunCtx) (sys : Sys) (sched : List Nat) : Option Sys :=
  match sched with
  | [] => some sys
  | t :: rest =>
    match threadStep ctx sys t with
    | none => none
    | some sys1 => runSched ctx sys1 rest

/-- A finished run: every caller is back outside with nothing pending. -/
def Sys.finished (sys : Sys) : Prop :=
  ∀ th ∈ sys.threads, th.pending = [] ∧ th.phase = .idle

/-- A thread is inside the critical section. -/
def Thread.inCS (th : Thread) : Prop := th.phase ≠ .idle

/-- At most one caller is inside the critical section. -/
def Sys.mutualExclusion (sys : Sys) : Prop :=
  ∀ i j, (hi : i < sys.threads.length) → (hj : j < sys.threads.length) →
    (sys.threads[i]).inCS → (sys.threads[j]).inCS → i = j

/-- The lines of the calls of one thread, in order. -/
def RunCtx.linesOf (ctx : RunCtx) (cs : List Call) : List String :=
  cs.map ctx.lineOf

/-- The lines a thread has not yet written to the file: the lines of
its pending calls, except that a thread in the `written` phase has
already written the line of its current (head) call. -/
def Thread.remLines (th : Thread) (ctx : RunCtx) : List String :=
  match th.phase with
  | .written _ => ctx.linesOf th.pending.tail
  | _ => ctx.linesOf th.pending

/-- The inductive invariant of a concurrent run in the regime where no
rotation triggers: some list `ms` of complete lines has been appended
to the initial base content (and nothing else about the file system has
changed); together with the lines still to be written it is a
permutation of all lines of the run; the mutex owner is the only
non-idle thread; every pending call is admitted; and a mid-section
thread's recorded line is the line of its current call. -/
def C9Inv (ctx : RunCtx) (fs0 : FS) (init : String)
    (allLines : List String) (sys : Sys) : Prop :=
  ∃ ms : List String,
    sys.fs = { fs0 with base := some (init ++ String.join ms) } ∧
    (ms ++ sys.threads.flatMap (fun th => th.remLines ctx)).Perm allLines ∧
    (sys.owner = none → ∀ i, (hi : i < sys.threads.length) →
      (sys.threads[i]).phase = .idle) ∧
    (∀ t, sys.owner = some t → ∀ u, (hu : u < sys.threads.length) →
      u ≠ t → (sys.threads[u]).phase = .idle) ∧
    (∀ i, (hi : i < sys.threads.length) →
      ∀ c ∈ (sys.threads[i]).pending,
        levelLt c.level ctx.lg.level = false) ∧
    (∀ i, (hi : i < sys.threads.length) → ∀ line,
      ((sys.threads[i]).phase = .formatted line ∨
       (sys.threads[i]).phase = .rotated line) →
      ∃ cc rest, (sys.threads[i]).pending = cc :: rest ∧
        line = ctx.lineOf cc)

end Golog

namespace Golog

/-! ## Helper lemmas -/

theorem cleanupBackups_isSome_of_nonneg {mb : Int} (hmb : 0 ≤ mb)
    (files : List BackupFile) : (cleanupBackups mb files).isSome := by
  unfold cleanupBackups
  by_cases h : (files.length : Int) ≤ mb
  · simp [h]
  · simp [h, not_lt.mpr hmb]

theorem cleanupBackups_eq_none_of_neg {mb : Int} (hmb : mb < 0)
    (files : List BackupFile) : cleanupBackups mb files = none := by
  unfold cleanupBackups
  have h : ¬ (files.length : Int) ≤ mb := by
    have : (0 : Int) ≤ (files.length : Int) := Int.ofNat_nonneg _
    omega
  simp [h, hmb]

theorem mapGet_mapInsert_self (m : Fields) (k : String) (v : JVal) :
    mapGet (mapInsert m k v) k = some v := by
  induction m with
  | nil => simp [mapInsert, mapGet]
  | cons p rest ih =>
    obtain ⟨k', v'⟩ := p
    by_cases h : k' = k
    · simp [mapInsert, mapGet, h]
    · simp [mapInsert, mapGet, h, ih]

theorem mapGet_mapInsert_ne (m : Fields) {k k' : String} (v : JVal)
    (h : k ≠ k') : mapGet (mapInsert m k v) k' = mapGet m k' := by
  induction m with
  | nil => simp [mapInsert, mapGet, h]
  | cons p rest ih =>
    obtain ⟨k0, v0⟩ := p
    by_cases h0 : k0 = k
    · simp [mapInsert, mapGet, h0, h]
    · by_cases h1 : k0 = k'
      · simp [mapInsert, mapGet, h0, h1, Ne.symm h]
      · simp [mapInsert, mapGet, h0, h1, ih]

theorem mapGet_foldl_insert_of_not_mem (fields : Fields) (m : Fields)
    (k : String) (hk : k ∉ mapKeys fields) :
    mapGet (fields.foldl (fun m p => mapInsert m p.1 p.2) m) k = mapGet m k := by
  induction fields generalizing m with
  | nil => rfl
  | cons p rest ih =>
    obtain ⟨k0, v0⟩ := p
    have hk0 : k0 ≠ k := by
      intro h; exact hk (by simp [mapKeys, h])
    have hkrest : k ∉ mapKeys rest := by
      intro h; exact hk (by simp [mapKeys] at h ⊢; exact Or.inr h)
    simp only [List.foldl_cons]
    rw [ih _ hkrest, mapGet_mapInsert_ne _ _ hk0]

theorem mapGet_foldl_insert_of_mem (fields : Fields) (m : Fields)
    (k : String) (v : JVal) (hnd : (mapKeys fields).Nodup)
    (hmem : (k, v) ∈ fields) :
    mapGet (fields.foldl (fun m p => mapInsert m p.1 p.2) m) k = some v := by
  induction fields generalizing m with
  | nil => cases hmem
  | cons p rest ih =>
    obtain ⟨k0, v0⟩ := p
    simp only [mapKeys, List.map_cons, List.nodup_cons] at hnd
    rcases List.mem_cons.mp hmem with heq | hrest
    · obtain ⟨hk, hv⟩ := Prod.mk.injEq .. ▸ heq
      subst hk; subst hv
      simp only [List.foldl_cons]
      rw [mapGet_foldl_insert_of_not_mem _ _ _ hnd.1, mapGet_mapInsert_self]
    · exact List.foldl_cons .. ▸ ih _ hnd.2 hrest

theorem string_join_acc (ms : List String) (acc : String) :
    ms.foldl (· ++ ·) acc = acc ++ String.join ms := by
  induction ms generalizing acc with
  | nil => simp [String.join]
  | cons m rest ih =>
    show rest.foldl (· ++ ·) (acc ++ m) = acc ++ String.join (m :: rest)
    rw [ih]
    show acc ++ m ++ String.join rest = acc ++ (m :: rest).foldl (· ++ ·) ""
    show acc ++ m ++ String.join rest = acc ++ rest.foldl (· ++ ·) ("" ++ m)
    rw [ih ("" ++ m)]
    simp [String.append_assoc]

theorem string_join_cons (m : String) (ms : List String) :
    String.join (m :: ms) = m ++ String.join ms := by
  show (m :: ms).foldl (· ++ ·) "" = m ++ String.join ms
  rw [List.foldl_cons, string_join_acc]
  simp

theorem string_join_append_singleton (ms : List String) (s : String) :
    String.join (ms ++ [s]) = String.join ms ++ s := by
  show (ms ++ [s]).foldl (· ++ ·) "" = String.join ms ++ s
  rw [List.foldl_append, string_join_acc]
  rfl

theorem string_length_join (ms : List String) :
    (String.join ms).length = (ms.map String.length).sum := by
  induction ms with
  | nil => rfl
  | cons m rest ih => rw [string_join_cons]; simp [ih]

end Golog

namespace Golog

theorem nl_not_mem_escChar (c : Char) : nl ∉ escChar c := by
  unfold escChar
  by_cases h1 : c = nl
  · simp only [h1, if_pos rfl]; decide
  · rw [if_neg h1]
    by_cases h2 : c = dq
    · rw [if_pos h2]; decide
    · rw [if_neg h2]
      by_cases h3 : c = bsl
      · rw [if_pos h3]; decide
      · rw [if_neg h3]
        by_cases h4 : c.toNat < 32
        · rw [if_pos h4]; decide
        · rw [if_neg h4]
          simp only [List.mem_singleton]
          intro he
          exact h1 he.symm

theorem nl_not_mem_escStr (cs : List Char) : nl ∉ escStr cs := by
  simp only [escStr, List.mem_flatMap, not_exists]
  intro c
  intro hc
  exact absurd hc.2 (nl_not_mem_escChar c)

theorem digitChar_ne_nl {d : Nat} (hd : d < 10) : digitChar d ≠ nl := by
  interval_cases d <;> decide

theorem nl_not_mem_natDigitsAux :
    ∀ (fuel n : Nat), n ≤ fuel → nl ∉ natDigitsAux fuel n
  | 0, n, hle => by
    have hn : n = 0 := Nat.le_zero.mp hle
    subst hn
    simp only [natDigitsAux, List.mem_singleton]
    intro he
    exact digitChar_ne_nl (by omega) he.symm
  | fuel + 1, n, hle => by
    rw [natDigitsAux]
    by_cases h : n < 10
    · simp only [if_pos h, List.mem_singleton]
      intro he
      exact digitChar_ne_nl h he.symm
    · simp only [if_neg h, List.mem_append, List.mem_singleton]
      have hdiv : n / 10 ≤ fuel := by
        have := Nat.div_lt_self (show 0 < n by omega) (show 1 < 10 by omega)
        omega
      rintro (hmem | heq)
      · exact nl_not_mem_natDigitsAux fuel (n / 10) hdiv hmem
      · exact digitChar_ne_nl (Nat.mod_lt n (by omega)) heq.symm

theorem nl_not_mem_natDigits (n : Nat) : nl ∉ natDigits n :=
  nl_not_mem_natDigitsAux n n (Nat.le_refl n)

theorem nl_not_mem_intDigits (n : Int) : nl ∉ intDigits n := by
  unfold intDigits
  by_cases h : n < 0
  · simp only [if_pos h, List.mem_cons]
    rintro (heq | hmem)
    · exact absurd heq (by decide)
    · exact nl_not_mem_natDigits _ hmem
  · rw [if_neg h]
    exact nl_not_mem_natDigits _

theorem nl_not_mem_renderJVal (v : JVal) : nl ∉ renderJVal v := by
  intro h
  match v with
  | .s s =>
    simp only [renderJVal] at h
    rcases List.mem_cons.mp h with h1 | h2
    · exact absurd h1 (by decide)
    · rcases List.mem_append.mp h2 with h3 | h4
      · exact nl_not_mem_escStr _ h3
      · exact absurd (List.mem_singleton.mp h4) (by decide)
  | .n v => exact nl_not_mem_intDigits v h
  | .b true => exact absurd h (by decide)
  | .b false => exact absurd h (by decide)

theorem nl_not_mem_renderMember (p : String × JVal) : nl ∉ renderMember p := by
  intro h
  simp only [renderMember] at h
  rcases List.mem_cons.mp h with h1 | h2
  · exact absurd h1 (by decide)
  · rcases List.mem_append.mp h2 with h3 | h4
    · rcases List.mem_append.mp h3 with h5 | h6
      · exact nl_not_mem_escStr _ h5
      · rcases List.mem_cons.mp h6 with h7 | h8
        · exact absurd h7 (by decide)
        · exact absurd (List.mem_singleton.mp h8) (by decide)
    · exact nl_not_mem_renderJVal _ h4

theorem nl_not_mem_joinComma (parts : List (List Char))
    (hp : ∀ part ∈ parts, nl ∉ part) : nl ∉ joinComma parts := by
  induction parts with
  | nil => simp [joinComma]
  | cons x xs ih =>
    match xs with
    | [] => exact hp x (by simp)
    | y :: ys =>
      simp only [joinComma, List.mem_append, List.mem_cons]
      rintro (h | h | h)
      · exact hp x (by simp) h
      · exact absurd h (by decide)
      · exact ih (fun part hmem => hp part (List.mem_cons_of_mem x hmem)) h

theorem nl_not_mem_jsonMarshal (m : Fields) : nl ∉ jsonMarshal m := by
  intro h
  simp only [jsonMarshal] at h
  rcases List.mem_cons.mp h with h1 | h2
  · exact absurd h1 (by decide)
  · rcases List.mem_append.mp h2 with h3 | h4
    · refine absurd h3 (nl_not_mem_joinComma _ ?_)
      intro part hpart
      obtain ⟨p, _, hp⟩ := List.mem_map.mp hpart
      exact hp ▸ nl_not_mem_renderMember p
    · exact absurd (List.mem_singleton.mp h4) (by decide)

end Golog

namespace Golog

theorem rotateIfNeeded_noop_of_small (r : Rotator) (env : GzEnv) (ts : Nat)
    (fs : FS) (h : Nat) (c : String) (hstat : fs.statFails = false)
    (hopen : h ∈ fs.openHandles) (hbase : fs.base = some c)
    (hsize : (c.length : Int) < r.maxSize) :
    r.RotateIfNeeded env ts fs h = some (fs, .ok ()) := by
  unfold Rotator.RotateIfNeeded FS.statSize
  simp [hstat, hopen, hbase, hsize]

end Golog

namespace Golog

/-- C7: a log call at a level strictly below the configured minimum
returns immediately with zero side effects: the file-system state is
returned unchanged and the event trace is empty — no lock acquisition,
no formatting, no console, stderr or file write, no rotation check. -/
theorem golog_c7_below_level_noop (l : Logger) (env : GzEnv) (now : Nat)
    (level : LogLevel) (msg : String) (fields : Fields) (fs : FS)
    (h : levelLt level l.level = true) :
    l.log env now level msg fields fs = some (fs, []) := by
  unfold Logger.log
  simp [h]

/-- Witness for C7 at a concrete logger and call. -/
theorem golog_c7_witness :
    levelLt .DEBUG .INFO = true ∧
      (Logger.log ⟨.INFO, false, some 1, "app.log", true, true,
          some (NewRotator "app.log" 1 3 false)⟩ GzEnv.clean 5
          .DEBUG "m" [] ⟨some "", [], [1], 2, false⟩ =
        some (⟨some "", [], [1], 2, false⟩, [])) :=
  ⟨rfl, golog_c7_below_level_noop _ _ _ _ _ _ _ rfl⟩

/-- C2 (code bug): a Rotator built with MaxSizeMB <= 0 does not treat
size rotation as disabled. Because every file size is >= the
non-positive threshold, RotateIfNeeded rotates on every call: it closes
the handle, renames the file (of any content, already at size 0) to a
timestamped backup and opens a fresh dropped handle, instead of being a
no-op as the claim requires. -/
theorem golog_c2_nonpositive_maxsize_rotates (fp : String) (mbMB mb : Int)
    (env : GzEnv) (ts : Nat) (fs : FS) (h : Nat) (c : String)
    (hmb : mbMB ≤ 0) (hkeep : 1 ≤ mb) (hstat : fs.statFails = false)
    (hopen : h ∈ fs.openHandles) (hbase : fs.base = some c)
    (hbk : fs.backups = []) :
    (NewRotator fp mbMB mb false).RotateIfNeeded env ts fs h =
      some (⟨some "", [⟨ts, false, c, ts⟩],
             fs.openHandles.erase h ++ [fs.nextId], fs.nextId + 1,
             false⟩, .ok ()) := by
  have hsize : ¬ ((c.length : Int) < mbMB * 1024 * 1024) := by
    have h0 : (0 : Int) ≤ (c.length : Int) := Int.ofNat_nonneg _
    omega
  have hlen : (1 : Int) ≤ mb := hkeep
  unfold Rotator.RotateIfNeeded FS.statSize FS.closeHandle FS.renameToBackup
    Rotator.RotateIfNeeded.rotCompress cleanupBackups FS.openFileAppend
  simp [hstat, hopen, hbase, hbk, hsize, hlen, NewRotator]

/-- Witness for C2 at MaxSizeMB = 0 and an empty size-0 file. -/
theorem golog_c2_witness :
    (NewRotator "app.log" 0 3 false).RotateIfNeeded GzEnv.clean 7
        ⟨some "", [], [1], 2, false⟩ 1 =
      some (⟨some "", [⟨7, false, "", 7⟩], [2], 3, false⟩, .ok ()) :=
  golog_c2_nonpositive_maxsize_rotates "app.log" 0 3 GzEnv.clean 7
    ⟨some "", [], [1], 2, false⟩ 1 "" (by decide) (by decide) rfl
    (by decide) rfl rfl

end Golog

namespace Golog

/-- Counterexample to C3 as stated: for a Logger holding an open file
handle, the first Close returns nil, and the second Close — because the
file field was not cleared — calls Close on the already-closed handle
and returns its error, contradicting "no error from either call". -/
theorem golog_c3_counterexample :
    (Logger.Close ⟨.INFO, false, some 0, "a", true, false, none⟩
        ⟨some "", [], [0], 1, false⟩).2 = .ok () ∧
    (Logger.Close ⟨.INFO, false, some 0, "a", true, false, none⟩
        (Logger.Close ⟨.INFO, false, some 0, "a", true, false, none⟩
          ⟨some "", [], [0], 1, false⟩).1).2 =
      .error "file already closed" :=
  ⟨rfl, rfl⟩

/-- C3 amended: Close when no file is open is a no-op returning nil, and
the first Close of an open handle succeeds; but Close is not idempotent:
the file field is not cleared, so a second Close invokes file.Close()
again — one more I/O call — and returns the already-closed error. -/
theorem golog_c3_close_second_call_errors (l : Logger) (fs : FS) :
    (l.file = none → l.Close fs = (fs, .ok ())) ∧
    (∀ h, l.file = some h → h ∈ fs.openHandles → fs.openHandles.Nodup →
      (l.Close fs).2 = .ok () ∧
      (l.Close (l.Close fs).1).2 = .error "file already closed") := by
  constructor
  · intro hf
    unfold Logger.Close
    rw [hf]
  · intro h hf hmem hnd
    have hnot : h ∉ fs.openHandles.erase h := by
      intro hmem'
      exact absurd ((hnd.mem_erase_iff).mp hmem').1 (by simp)
    unfold Logger.Close FS.closeHandle
    rw [hf]
    simp [hmem, hnot]

/-- Witness for C3's amended statement at a concrete logger. -/
theorem golog_c3_witness :
    ((Logger.Close ⟨.INFO, false, none, "", false, true, none⟩
        ⟨none, [], [], 0, false⟩) = (⟨none, [], [], 0, false⟩, .ok ())) ∧
    ((Logger.Close ⟨.WARN, true, some 4, "b", true, false, none⟩
        ⟨some "x", [], [4], 5, false⟩).2 = .ok () ∧
      (Logger.Close ⟨.WARN, true, some 4, "b", true, false, none⟩
        (Logger.Close ⟨.WARN, true, some 4, "b", true, false, none⟩
          ⟨some "x", [], [4], 5, false⟩).1).2 =
        .error "file already closed") :=
  ⟨(golog_c3_close_second_call_errors _ _).1 rfl,
   (golog_c3_close_second_call_errors _ _).2 4 rfl (by decide) (by decide)⟩

end Golog

namespace Golog

theorem sortByMtimeDesc_perm (files : List BackupFile) :
    (sortByMtimeDesc files).Perm files := List.mergeSort_perm files _

theorem sortByMtimeDesc_pairwise (files : List BackupFile) :
    (sortByMtimeDesc files).Pairwise
      (fun a b => decide (b.mtime ≤ a.mtime) = true) := by
  exact @List.sorted_mergeSort BackupFile
    (fun a b => decide (b.mtime ≤ a.mtime))
    (by intro a b c hab hbc; simp only [decide_eq_true_eq] at *; omega)
    (by intro a b; simp only [Bool.or_eq_true, decide_eq_true_eq]; omega)
    files

theorem cleanupBackups_zero_append (l : List BackupFile) (b : BackupFile) :
    cleanupBackups 0 (l ++ [b]) = some [] := by
  unfold cleanupBackups
  have h1 : ¬ (((l ++ [b]).length : Int) ≤ 0) := by
    simp only [List.length_append, List.length_singleton]
    omega
  simp [h1]

/-- C10: the retention-cleanup deletion loop starts at index
`maxBackups` with no lower-bound guard. It never indexes out of range
when `maxBackups >= 0`; but a negative `Config.MaxBackups` is stored
unchecked by `NewLogger`/`NewRotator`, and then every retention cleanup
— in particular the one inside the first triggered rotation — indexes
`fileInfos[maxBackups]` out of range, a runtime panic (`none`). -/
theorem golog_c10_negative_maxbackups_panics :
    (∀ (mb : Int) (files : List BackupFile), 0 ≤ mb →
      (cleanupBackups mb files).isSome) ∧
    (∀ (cfg : Config) (fs : FS), cfg.MaxBackups < 0 → cfg.FilePath ≠ "" →
      ∃ r, (NewLogger cfg fs).1.rotator = some r ∧
        r.maxBackups = cfg.MaxBackups ∧
        ∀ files, cleanupBackups r.maxBackups files = none) ∧
    (∀ (r : Rotator) (env : GzEnv) (ts : Nat) (fs : FS) (h : Nat)
      (c : String), r.maxBackups < 0 → r.compress = false →
      fs.statFails = false → h ∈ fs.openHandles → fs.base = some c →
      r.maxSize ≤ (c.length : Int) →
      r.RotateIfNeeded env ts fs h = none) := by
  refine ⟨?_, ?_, ?_⟩
  · intro mb files hmb
    exact cleanupBackups_isSome_of_nonneg hmb files
  · intro cfg fs hneg hfp
    refine ⟨NewRotator cfg.FilePath cfg.MaxSizeMB cfg.MaxBackups cfg.Compress,
      ?_, rfl, fun files => cleanupBackups_eq_none_of_neg hneg files⟩
    unfold NewLogger
    simp [hfp]
  · intro r env ts fs h c hneg hcmp hstat hopen hbase hsize
    have hsz : ¬ ((c.length : Int) < r.maxSize) := not_lt.mpr hsize
    unfold Rotator.RotateIfNeeded FS.statSize FS.closeHandle
      FS.renameToBackup Rotator.RotateIfNeeded.rotCompress
    simp [hstat, hopen, hbase, hsz, hcmp,
      cleanupBackups_eq_none_of_neg hneg]

/-- Witness for C10 at concrete configurations. -/
theorem golog_c10_witness :
    (cleanupBackups 2 [⟨1, false, "a", 1⟩]).isSome ∧
    (∃ r, (NewLogger ⟨.INFO, "app.log", false, "text", 1, -1, false⟩
        ⟨none, [], [], 0, false⟩).1.rotator = some r ∧
      r.maxBackups = -1 ∧
      ∀ files, cleanupBackups r.maxBackups files = none) ∧
    (NewRotator "app.log" 0 (-1) false).RotateIfNeeded GzEnv.clean 7
      ⟨some "", [], [1], 2, false⟩ 1 = none :=
  ⟨golog_c10_negative_maxbackups_panics.1 2 [⟨1, false, "a", 1⟩] (by decide),
   golog_c10_negative_maxbackups_panics.2.1
     ⟨.INFO, "app.log", false, "text", 1, -1, false⟩
     ⟨none, [], [], 0, false⟩ (by decide) (by decide),
   golog_c10_negative_maxbackups_panics.2.2
     (NewRotator "app.log" 0 (-1) false) GzEnv.clean 7
     ⟨some "", [], [1], 2, false⟩ 1 "" (by decide) rfl rfl (by decide) rfl
     (by decide)⟩

end Golog

namespace Golog

/-- C5: retention cleanup with `maxBackups >= 0` keeps at most
`maxBackups` of the globbed backup files, and every deleted file is no
newer (by modification time) than every retained one — the retained
files are the `maxBackups` newest; and with `maxBackups = 0` a
triggered rotation deletes the backup it just created: the rotation
returns successfully with an empty backup set. -/
theorem golog_c5_retention_bound :
    (∀ (mb : Int) (files : List BackupFile), 0 ≤ mb →
      ∃ kept, cleanupBackups mb files = some kept ∧
        (kept.length : Int) ≤ mb ∧
        (∀ b ∈ files, b ∉ kept → ∀ k ∈ kept, b.mtime ≤ k.mtime)) ∧
    (∀ (r : Rotator) (env : GzEnv) (ts : Nat) (fs : FS) (h : Nat)
      (c : String), r.maxBackups = 0 → r.compress = false →
      fs.statFails = false → h ∈ fs.openHandles → fs.base = some c →
      r.maxSize ≤ (c.length : Int) →
      r.RotateIfNeeded env ts fs h =
        some (⟨some "", [], fs.openHandles.erase h ++ [fs.nextId],
               fs.nextId + 1, false⟩, .ok ())) := by
  constructor
  · intro mb files hmb
    by_cases hle : (files.length : Int) ≤ mb
    · refine ⟨files, ?_, hle, ?_⟩
      · unfold cleanupBackups
        simp [hle]
      · intro b hb hnb _k _hk
        exact absurd hb hnb
    · have hneg : ¬ mb < 0 := not_lt.mpr hmb
      refine ⟨(sortByMtimeDesc files).take mb.toNat, ?_, ?_, ?_⟩
      · unfold cleanupBackups
        simp [hle, hneg]
      · have hlen : ((sortByMtimeDesc files).take mb.toNat).length ≤ mb.toNat :=
          List.length_take_le _ _
        calc (((sortByMtimeDesc files).take mb.toNat).length : Int)
            ≤ (mb.toNat : Int) := by exact_mod_cast hlen
          _ = mb := Int.toNat_of_nonneg hmb
      · intro b hb hnb k hk
        have hbs : b ∈ sortByMtimeDesc files :=
          (sortByMtimeDesc_perm files).mem_iff.mpr hb
        have hsplit := List.take_append_drop mb.toNat (sortByMtimeDesc files)
        have hbd : b ∈ (sortByMtimeDesc files).drop mb.toNat := by
          rcases List.mem_append.mp (hsplit ▸ hbs) with h1 | h2
          · exact absurd h1 hnb
          · exact h2
        have hp := sortByMtimeDesc_pairwise files
        rw [← hsplit] at hp
        obtain ⟨-, -, hcross⟩ := List.pairwise_append.mp hp
        have := hcross k hk b hbd
        simpa using this
  · intro r env ts fs h c hmb0 hcmp hstat hopen hbase hsize
    have hsz : ¬ ((c.length : Int) < r.maxSize) := not_lt.mpr hsize
    unfold Rotator.RotateIfNeeded FS.statSize FS.closeHandle
      FS.renameToBackup Rotator.RotateIfNeeded.rotCompress FS.openFileAppend
    simp [hstat, hopen, hbase, hsz, hcmp, hmb0, cleanupBackups_zero_append]

/-- Witness for C5 at a concrete backup list and a concrete rotation. -/
theorem golog_c5_witness :
    (∃ kept, cleanupBackups 1 [⟨3, false, "a", 3⟩, ⟨5, false, "b", 5⟩,
        ⟨4, false, "c", 4⟩] = some kept ∧
      (kept.length : Int) ≤ 1 ∧
      (∀ b ∈ [⟨3, false, "a", 3⟩, ⟨5, false, "b", 5⟩,
          (⟨4, false, "c", 4⟩ : BackupFile)], b ∉ kept →
        ∀ k ∈ kept, b.mtime ≤ k.mtime)) ∧
    (NewRotator "app.log" 0 0 false).RotateIfNeeded GzEnv.clean 9
      ⟨some "z", [⟨2, false, "w", 2⟩], [6], 7, false⟩ 6 =
      some (⟨some "", [], [7], 8, false⟩, .ok ()) :=
  ⟨golog_c5_retention_bound.1 1 _ (by decide),
   golog_c5_retention_bound.2 (NewRotator "app.log" 0 0 false) GzEnv.clean 9
     ⟨some "z", [⟨2, false, "w", 2⟩], [6], 7, false⟩ 6 "z" rfl rfl rfl
     (by decide) rfl (by decide)⟩

end Golog

namespace Golog

/-- Counterexample to C6 as stated: when only the deferred `gz.Close()`
flush fails, `compressFile` still reports success (the deferred error
is discarded), so the rotation deletes the uncompressed source although
the compressed copy was never confirmed fully written. -/
theorem golog_c6_counterexample :
    (compressBranch ⟨false, false, false, true⟩ "data").sourceKept = false ∧
    (compressBranch ⟨false, false, false, true⟩ "data").gzFile ≠
      GzOut.full "data" :=
  ⟨rfl, by decide⟩

/-- C6 amended: every compression failure that `compressFile` reports
leaves the uncompressed timestamped backup in place and surfaces the
error to the rotation caller, and on reported success with a clean
final flush the compressed copy is complete before the source is
deleted; but `compressFile` discards the deferred `gz.Close` error, so
a failing final flush yields a reported success and the source is then
deleted without the compressed copy being fully written. -/
theorem golog_c6_compress_error_keeps_source :
    (∀ (env : GzEnv) (src : String),
      ((compressBranch env src).err).isSome →
        (compressBranch env src).sourceKept = true) ∧
    (∀ (env : GzEnv) (src : String),
      (compressBranch env src).sourceKept = false →
        (compressBranch env src).err = none) ∧
    (∀ (env : GzEnv) (src : String),
      (compressBranch env src).sourceKept = false →
        env.gzCloseFails = false →
        (compressBranch env src).gzFile = GzOut.full src) ∧
    (∀ (env : GzEnv) (src : String),
      env.openFails = false → env.createFails = false →
      env.copyFails = false → env.gzCloseFails = true →
        (compressBranch env src).sourceKept = false ∧
        (compressBranch env src).gzFile = GzOut.incomplete) ∧
    ((NewRotator "a" 0 3 true).RotateIfNeeded ⟨false, false, true, false⟩ 7
        ⟨some "s", [], [1], 2, false⟩ 1 =
      some (⟨none, [⟨7, false, "s", 7⟩, ⟨7, true, "", 7⟩], [], 2, false⟩,
        .error "failed to compress log file: copy failed")) := by
  refine ⟨?_, ?_, ?_, ?_, ?_⟩
  · intro env src hs
    obtain ⟨o, cr, cp, gz⟩ := env
    cases o <;> cases cr <;> cases cp <;> cases gz <;>
      simp_all [compressBranch, compressFile]
  · intro env src hs
    obtain ⟨o, cr, cp, gz⟩ := env
    cases o <;> cases cr <;> cases cp <;> cases gz <;>
      simp_all [compressBranch, compressFile]
  · intro env src hs hgz
    obtain ⟨o, cr, cp, gz⟩ := env
    cases o <;> cases cr <;> cases cp <;> cases gz <;>
      simp_all [compressBranch, compressFile]
  · intro env src h1 h2 h3 h4
    obtain ⟨o, cr, cp, gz⟩ := env
    cases o <;> cases cr <;> cases cp <;> cases gz <;>
      simp_all [compressBranch, compressFile]
  · rfl

/-- Witness for C6's amended statement at concrete oracles. -/
theorem golog_c6_witness :
    ((compressBranch ⟨false, false, true, false⟩ "s").err).isSome = true ∧
    (compressBranch ⟨false, false, true, false⟩ "s").sourceKept = true ∧
    (compressBranch GzEnv.clean "s").gzFile = GzOut.full "s" ∧
    ((compressBranch ⟨false, false, false, true⟩ "t").sourceKept = false ∧
      (compressBranch ⟨false, false, false, true⟩ "t").gzFile =
        GzOut.incomplete) :=
  ⟨by decide,
   golog_c6_compress_error_keeps_source.1 ⟨false, false, true, false⟩ "s"
     (by decide),
   golog_c6_compress_error_keeps_source.2.2.1 GzEnv.clean "s" rfl rfl,
   golog_c6_compress_error_keeps_source.2.2.2.1 ⟨false, false, false, true⟩
     "t" rfl rfl rfl rfl⟩

end Golog

namespace Golog

theorem mapGet_eq_none_iff (m : Fields) (k : String) :
    mapGet m k = none ↔ k ∉ mapKeys m := by
  induction m with
  | nil => simp [mapGet, mapKeys]
  | cons p rest ih =>
    obtain ⟨k0, v0⟩ := p
    have hcons : mapKeys ((k0, v0) :: rest) = k0 :: mapKeys rest := rfl
    rw [hcons]
    by_cases h0 : k0 = k
    · simp only [mapGet, if_pos h0, List.mem_cons]
      constructor
      · intro h; exact absurd h (by simp)
      · intro h; exact absurd (Or.inl h0.symm) h
    · simp only [mapGet, if_neg h0, List.mem_cons]
      rw [ih]
      constructor
      · intro h hk
        rcases hk with h1 | h2
        · exact h0 h1.symm
        · exact h h2
      · intro h hk
        exact h (Or.inr hk)

theorem mem_of_mapGet_eq_some {m : Fields} {k : String} {v : JVal}
    (h : mapGet m k = some v) : (k, v) ∈ m := by
  induction m with
  | nil => simp [mapGet] at h
  | cons p rest ih =>
    obtain ⟨k0, v0⟩ := p
    by_cases h0 : k0 = k
    · subst h0
      simp [mapGet] at h
      exact h ▸ List.mem_cons_self _ _
    · simp only [mapGet, if_neg h0] at h
      exact List.mem_cons_of_mem _ (ih h)

theorem exists_val_of_mem_mapKeys {m : Fields} {k : String}
    (h : k ∈ mapKeys m) : ∃ v, (k, v) ∈ m := by
  obtain ⟨p, hp, hk⟩ := List.mem_map.mp h
  exact ⟨p.2, by rw [← hk]; exact hp⟩

/-- C8: the JSON formatter emits one JSON object per line — its output
contains exactly one newline, at the end (JSON string escaping keeps
newlines out of the body) — and its entry map contains the reserved
keys `timestamp`, `level` and `message` with every field key merged at
the top level; a colliding field key overwrites the reserved value
(in particular a field literally named "level" replaces the level
value), never the reverse. -/
theorem golog_c8_json_formatter (ts : String) (level : LogLevel)
    (msg : String) (fields : Fields) (hnd : (mapKeys fields).Nodup) :
    (JSONFormatter.Format ts level msg fields).data.count nl = 1 ∧
    (JSONFormatter.Format ts level msg fields).data.getLast? = some nl ∧
    (mapGet (JSONFormatter.entry ts level msg fields) "timestamp").isSome ∧
    (mapGet (JSONFormatter.entry ts level msg fields) "level").isSome ∧
    (mapGet (JSONFormatter.entry ts level msg fields) "message").isSome ∧
    (∀ k v, (k, v) ∈ fields →
      mapGet (JSONFormatter.entry ts level msg fields) k = some v) ∧
    (mapGet fields "level" = none →
      mapGet (JSONFormatter.entry ts level msg fields) "level" =
        some (.s level.str)) ∧
    (∀ v, mapGet fields "level" = some v →
      mapGet (JSONFormatter.entry ts level msg fields) "level" = some v) := by
  have hsome : ∀ k : String,
      mapGet [("timestamp", JVal.s ts), ("level", JVal.s level.str),
        ("message", JVal.s msg)] k ≠ none →
      (mapGet (JSONFormatter.entry ts level msg fields) k).isSome := by
    intro k hbase
    unfold JSONFormatter.entry
    by_cases hk : k ∈ mapKeys fields
    · obtain ⟨v, hv⟩ := exists_val_of_mem_mapKeys hk
      rw [mapGet_foldl_insert_of_mem _ _ _ _ hnd hv]
      rfl
    · rw [mapGet_foldl_insert_of_not_mem _ _ _ hk]
      cases hg : mapGet [("timestamp", JVal.s ts), ("level", JVal.s level.str),
        ("message", JVal.s msg)] k with
      | none => exact absurd hg hbase
      | some v => rfl
  refine ⟨?_, ?_, ?_, ?_, ?_, ?_, ?_, ?_⟩
  · show (jsonMarshal (JSONFormatter.entry ts level msg fields) ++ [nl]).count nl = 1
    rw [List.count_append]
    rw [List.count_eq_zero.mpr
      (nl_not_mem_jsonMarshal (JSONFormatter.entry ts level msg fields))]
    rfl
  · show (jsonMarshal (JSONFormatter.entry ts level msg fields) ++ [nl]).getLast? = some nl
    exact List.getLast?_concat _
  · exact hsome "timestamp" (by simp [mapGet])
  · exact hsome "level" (by simp [mapGet])
  · exact hsome "message" (by simp [mapGet])
  · intro k v hmem
    exact mapGet_foldl_insert_of_mem _ _ _ _ hnd hmem
  · intro hnone
    unfold JSONFormatter.entry
    rw [mapGet_foldl_insert_of_not_mem _ _ _
      ((mapGet_eq_none_iff _ _).mp hnone)]
    simp [mapGet]
  · intro v hv
    exact mapGet_foldl_insert_of_mem _ _ _ _ hnd (mem_of_mapGet_eq_some hv)

/-- Witness for C8 at a concrete level, message and colliding field. -/
theorem golog_c8_witness :
    (mapKeys [("level", JVal.s "HACK"), ("k", JVal.n 3)]).Nodup ∧
    ((JSONFormatter.Format "T" .INFO "m"
        [("level", JVal.s "HACK"), ("k", JVal.n 3)]).data.count nl = 1 ∧
      mapGet (JSONFormatter.entry "T" .INFO "m"
        [("level", JVal.s "HACK"), ("k", JVal.n 3)]) "level" =
        some (JVal.s "HACK")) :=
  ⟨by decide,
   (golog_c8_json_formatter "T" .INFO "m"
      [("level", JVal.s "HACK"), ("k", JVal.n 3)] (by decide)).1,
   (golog_c8_json_formatter "T" .INFO "m"
      [("level", JVal.s "HACK"), ("k", JVal.n 3)] (by decide)).2.2.2.2.2.2.2
     (JVal.s "HACK") rfl⟩

end Golog

namespace Golog

theorem rotateIfNeeded_triggered (r : Rotator) (env : GzEnv) (ts : Nat)
    (fs : FS) (h : Nat) (c : String) (hstat : fs.statFails = false)
    (hopen : h ∈ fs.openHandles) (hbase : fs.base = some c)
    (hsz : ¬ ((c.length : Int) < r.maxSize)) (hcmp : r.compress = false)
    (hmb : 0 ≤ r.maxBackups) :
    ∃ kept, cleanupBackups r.maxBackups
        ((fs.backups.filter (fun b => !(b.ts == ts && !b.gz))) ++
          [⟨ts, false, c, ts⟩]) = some kept ∧
      r.RotateIfNeeded env ts fs h =
        some (⟨some "", kept, fs.openHandles.erase h ++ [fs.nextId],
          fs.nextId + 1, false⟩, .ok ()) := by
  obtain ⟨kept, hck⟩ := Option.isSome_iff_exists.mp
    (cleanupBackups_isSome_of_nonneg hmb
      ((fs.backups.filter (fun b => !(b.ts == ts && !b.gz))) ++
        [⟨ts, false, c, ts⟩]))
  have h1 : fs.statSize h = .ok (c.length : Int) := by
    unfold FS.statSize
    rw [hstat]
    simp [hopen, hbase]
  have h2 : fs.closeHandle h =
      ((⟨fs.base, fs.backups, fs.openHandles.erase h, fs.nextId,
        false⟩ : FS), .ok ()) := by
    unfold FS.closeHandle
    rw [if_pos hopen, hstat]
  have h3 : (⟨fs.base, fs.backups, fs.openHandles.erase h, fs.nextId,
        false⟩ : FS).renameToBackup ts =
      ((⟨none,
        (fs.backups.filter (fun b => !(b.ts == ts && !b.gz))) ++
          [⟨ts, false, c, ts⟩],
        fs.openHandles.erase h, fs.nextId, false⟩ : FS), .ok ()) := by
    unfold FS.renameToBackup
    simp only [hbase]
  refine ⟨kept, hck, ?_⟩
  unfold Rotator.RotateIfNeeded Rotator.RotateIfNeeded.rotCompress
    FS.openFileAppend
  simp only [h1, hsz, if_false, h2, h3, hcmp, Bool.false_eq_true, hck, hstat]

/-- C1 (code bug): when a log call triggers a rotation, the fresh
handle opened by RotateIfNeeded is assigned to its local parameter and
dropped — only the error is returned. The Logger therefore keeps using
its stale `file` field: the write immediately after the rotation goes
to the closed pre-rotation handle and is silently lost (the fresh base
file stays empty), while the fresh handle (identifier `fs.nextId`)
leaks open. The claim's required behaviour — the post-rotation write
goes to the freshly opened handle — does not hold. -/
theorem golog_c1_write_after_rotation_lost (l : Logger) (r : Rotator)
    (env : GzEnv) (now : Nat) (level : LogLevel) (msg : String)
    (fields : Fields) (fs : FS) (h : Nat) (c : String)
    (hadm : levelLt level l.level = false)
    (hfile : l.logToFile = true) (hh : l.file = some h)
    (hrot : l.rotator = some r) (hcmp : r.compress = false)
    (hmb : 0 ≤ r.maxBackups)
    (hstat : fs.statFails = false) (hopen : h ∈ fs.openHandles)
    (hnd : fs.openHandles.Nodup) (hne : h ≠ fs.nextId)
    (hbase : fs.base = some c) (hsize : r.maxSize ≤ (c.length : Int)) :
    ∃ fs' evs, l.log env now level msg fields fs = some (fs', evs) ∧
      fs'.base = some "" ∧
      h ∉ fs'.openHandles ∧
      fs.nextId ∈ fs'.openHandles ∧
      l.file = some h := by
  obtain ⟨kept, hck, hrotEq⟩ := rotateIfNeeded_triggered r env now fs h c
    hstat hopen hbase (not_lt.mpr hsize) hcmp hmb
  have hmem : h ∉ fs.openHandles.erase h ++ [fs.nextId] := by
    intro hmem
    rcases List.mem_append.mp hmem with h1 | h2
    · exact absurd ((hnd.mem_erase_iff).mp h1).1 (by simp)
    · exact hne (List.mem_singleton.mp h2)
  have hwrite : ∀ s : String,
      (FS.writeString ⟨some "", kept, fs.openHandles.erase h ++ [fs.nextId],
        fs.nextId + 1, false⟩ h s).1 =
      ⟨some "", kept, fs.openHandles.erase h ++ [fs.nextId],
        fs.nextId + 1, false⟩ := by
    intro s
    unfold FS.writeString
    rw [if_neg hmem]
  have hlog : l.log env now level msg fields fs =
      some ((⟨some "", kept, fs.openHandles.erase h ++ [fs.nextId],
          fs.nextId + 1, false⟩ : FS),
        ([Event.lock,
          Event.format (l.Format (String.mk (natDigits now)) level msg fields)] ++
          (if l.logToConsole then
            [Event.console (l.Format (String.mk (natDigits now)) level msg fields)]
          else [])) ++ [Event.unlock]) := by
    unfold Logger.log
    simp only [hadm, Bool.false_eq_true, if_false, hfile, if_true, hh, hrot,
      hrotEq, hwrite]
  exact ⟨_, _, hlog, rfl, hmem, by simp, hh⟩

/-- Witness for C1: a 1 MiB file under a 1 MiB threshold; after the
rotating log call the fresh base file is empty (the INFO line was
written to the closed handle and lost) and the logger still holds the
closed handle. -/
theorem golog_c1_witness :
    ∃ fs' evs,
      Logger.log ⟨.INFO, false, some 1, "app.log", true, false,
          some (NewRotator "app.log" 1 3 false)⟩ GzEnv.clean 7 .INFO "hello"
          [] ⟨some (String.mk (List.replicate 1048576 'x')), [], [1], 2,
          false⟩ = some (fs', evs) ∧
      fs'.base = some "" ∧
      1 ∉ fs'.openHandles ∧
      2 ∈ fs'.openHandles ∧
      (⟨.INFO, false, some 1, "app.log", true, false,
        some (NewRotator "app.log" 1 3 false)⟩ : Logger).file = some 1 := by
  have hlen : ((String.mk (List.replicate 1048576 'x')).length : Int) =
      1048576 := by
    rw [String.length_mk, List.length_replicate]
    rfl
  exact golog_c1_write_after_rotation_lost
    ⟨.INFO, false, some 1, "app.log", true, false,
      some (NewRotator "app.log" 1 3 false)⟩
    (NewRotator "app.log" 1 3 false) GzEnv.clean 7 .INFO "hello" []
    ⟨some (String.mk (List.replicate 1048576 'x')), [], [1], 2, false⟩ 1
    (String.mk (List.replicate 1048576 'x')) rfl rfl rfl rfl rfl
    (by decide) rfl (by decide) (by decide) (by decide) rfl
    (by rw [hlen]; decide)

end Golog

namespace Golog

/-- Counterexample to C4 as stated: a log call whose rotation succeeds
but whose subsequent file write fails (the handle was closed by that
very rotation) writes nothing to the file — the fresh base file stays
empty — yet stderr stays empty too: the `WriteString` error is
discarded, so this I/O failure is never reported on the diagnostic side
channel. -/
theorem golog_c4_counterexample :
    ∃ evs, Logger.log ⟨.INFO, false, some 1, "app.log", true, false,
          some (NewRotator "app.log" 0 1 false)⟩ GzEnv.clean 7 .INFO
          "hello" [] ⟨some "", [], [1], 2, false⟩ =
        some (⟨some "", [⟨7, false, "", 7⟩], [2], 3, false⟩, evs) ∧
      stderrOf evs = [] :=
  ⟨[.lock, .format (Logger.Format ⟨.INFO, false, some 1, "app.log", true,
      false, some (NewRotator "app.log" 0 1 false)⟩
      (String.mk (natDigits 7)) .INFO "hello" []), .unlock], rfl, rfl⟩

/-- C4 amended: an admitted log call returns nothing to the caller
(only the state and its side-channel events); a rotation failure is
reported on stderr and the file write is still attempted afterwards on
the surviving state, and the console sink receives the line whenever it
is enabled, independent of file-sink failures; but stderr carries
exactly the rotation report — a failed file write is silently
discarded, never reported. -/
theorem golog_c4_rotation_reported_write_failures_silent (l : Logger)
    (env : GzEnv) (now : Nat) (level : LogLevel) (msg : String)
    (fields : Fields) (fs fs1 : FS) (h : Nat) (res : Except String Unit)
    (r : Rotator) (hadm : levelLt level l.level = false)
    (hfile : l.logToFile = true) (hh : l.file = some h)
    (hrot : l.rotator = some r)
    (hr : r.RotateIfNeeded env now fs h = some (fs1, res)) :
    ∃ evs, l.log env now level msg fields fs =
        some ((fs1.writeString h
          (l.Format (String.mk (natDigits now)) level msg fields)).1, evs) ∧
      stderrOf evs = (match res with
        | .error e => ["Failed to rotate log: " ++ e]
        | .ok () => []) ∧
      consoleOf evs = (if l.logToConsole then
        [l.Format (String.mk (natDigits now)) level msg fields] else []) := by
  refine ⟨([Event.lock,
      Event.format (l.Format (String.mk (natDigits now)) level msg fields)] ++
      (if l.logToConsole then
        [Event.console (l.Format (String.mk (natDigits now)) level msg fields)]
      else []) ++
      (match res with
        | .error e => [Event.stderr ("Failed to rotate log: " ++ e)]
        | .ok () => [])) ++ [Event.unlock], ?_, ?_, ?_⟩
  · unfold Logger.log
    cases res with
    | error e =>
      simp only [hadm, Bool.false_eq_true, if_false, hfile, if_true, hh,
        hrot, hr, List.append_assoc]
    | ok u =>
      cases u
      simp only [hadm, Bool.false_eq_true, if_false, hfile, if_true, hh,
        hrot, hr, List.append_nil, List.append_assoc]
  · cases res with
    | error e => cases hcon : l.logToConsole <;> simp [stderrOf, hcon]
    | ok u => cases u; cases hcon : l.logToConsole <;> simp [stderrOf, hcon]
  · cases res with
    | error e => cases hcon : l.logToConsole <;> simp [consoleOf, hcon]
    | ok u => cases u; cases hcon : l.logToConsole <;> simp [consoleOf, hcon]

/-- Witness for C4's amended statement: an injected stat failure makes
the rotation fail; the report lands on stderr, the line is still
written to the file and to the console. -/
theorem golog_c4_witness :
    ∃ evs, Logger.log ⟨.INFO, false, some 1, "a", true, true,
        some (NewRotator "a" 5 3 false)⟩ GzEnv.clean 7 .INFO "m" []
        ⟨some "x", [], [1], 2, true⟩ =
        some ((FS.writeString ⟨some "x", [], [1], 2, true⟩ 1
          (Logger.Format ⟨.INFO, false, some 1, "a", true, true,
            some (NewRotator "a" 5 3 false)⟩ (String.mk (natDigits 7))
            .INFO "m" [])).1, evs) ∧
      stderrOf evs =
        ["Failed to rotate log: failed to stat log file: input-output error"] ∧
      consoleOf evs = [Logger.Format ⟨.INFO, false, some 1, "a", true, true,
        some (NewRotator "a" 5 3 false)⟩ (String.mk (natDigits 7))
        .INFO "m" []] := by
  have happ := golog_c4_rotation_reported_write_failures_silent
    ⟨.INFO, false, some 1, "a", true, true, some (NewRotator "a" 5 3 false)⟩
    GzEnv.clean 7 .INFO "m" [] ⟨some "x", [], [1], 2, true⟩
    ⟨some "x", [], [1], 2, true⟩ 1
    (.error "failed to stat log file: input-output error")
    (NewRotator "a" 5 3 false) rfl rfl rfl rfl rfl
  obtain ⟨evs, h1, h2, h3⟩ := happ
  exact ⟨evs, h1, h2, by simpa using h3⟩

end Golog

namespace Golog

theorem flatMap_take_get_drop {α β : Type} (f : α → List β) :
    ∀ (l : List α) (n : Nat) (h : n < l.length),
      l.flatMap f = (l.take n).flatMap f ++
        (f (l.get ⟨n, h⟩) ++ (l.drop (n + 1)).flatMap f)
  | x :: xs, 0, _ => by simp
  | x :: xs, n + 1, h => by
    have ih := flatMap_take_get_drop f xs n (by simpa using h)
    simp only [List.flatMap_cons, List.take_succ_cons, List.drop_succ_cons,
      List.get_cons_succ, List.flatMap_cons, List.append_assoc]
    rw [ih]

theorem flatMap_set_decomp {α β : Type} (f : α → List β) :
    ∀ (l : List α) (n : Nat) (a : α), n < l.length →
      (l.set n a).flatMap f = (l.take n).flatMap f ++
        (f a ++ (l.drop (n + 1)).flatMap f)
  | x :: xs, 0, a, _ => by simp [List.set]
  | x :: xs, n + 1, a, h => by
    have ih := flatMap_set_decomp f xs n a (by simpa using h)
    simp only [List.set, List.flatMap_cons, List.take_succ_cons,
      List.drop_succ_cons, List.append_assoc]
    rw [ih]

theorem c9_write_perm {α : Type} (ms A L C : List α) (x : α) :
    ((ms ++ [x]) ++ (A ++ (L ++ C))).Perm (ms ++ (A ++ (x :: L ++ C))) := by
  have h1 : (ms ++ [x]) ++ (A ++ (L ++ C)) =
      ms ++ (x :: (A ++ (L ++ C))) := by
    simp [List.append_assoc]
  rw [h1]
  have h2 : (x :: (A ++ (L ++ C))).Perm (A ++ x :: (L ++ C)) :=
    List.perm_middle.symm
  have h3 := h2.append_left ms
  simpa using h3

theorem c9_mutualExclusion_of_parts (sys : Sys)
    (hOC1 : sys.owner = none → ∀ i, (hi : i < sys.threads.length) →
      (sys.threads[i]).phase = .idle)
    (hOC2 : ∀ t, sys.owner = some t → ∀ u, (hu : u < sys.threads.length) →
      u ≠ t → (sys.threads[u]).phase = .idle) :
    sys.mutualExclusion := by
  intro i j hi hj hiCS hjCS
  cases how : sys.owner with
  | none => exact absurd (hOC1 how i hi) hiCS
  | some w =>
    by_cases hiw : i = w
    · by_cases hjw : j = w
      · rw [hiw, hjw]
      · exact absurd (hOC2 w how j hj hjw) hjCS
    · exact absurd (hOC2 w how i hi hiw) hiCS

end Golog

namespace Golog

theorem c9_ocs_set_nonidle (sys : Sys) (t : Nat)
    (hlen : t < sys.threads.length) (th' : Thread)
    (hOC1 : sys.owner = none → ∀ i, (hi : i < sys.threads.length) →
      (sys.threads[i]).phase = .idle)
    (hOC2 : ∀ w, sys.owner = some w → ∀ u, (hu : u < sys.threads.length) →
      u ≠ w → (sys.threads[u]).phase = .idle)
    (hnon : (sys.threads[t]).phase ≠ .idle) :
    (sys.owner = none → ∀ i, (hi : i < (sys.threads.set t th').length) →
      ((sys.threads.set t th')[i]).phase = .idle) ∧
    (∀ w, sys.owner = some w → ∀ u, (hu : u < (sys.threads.set t th').length) →
      u ≠ w → ((sys.threads.set t th')[u]).phase = .idle) := by
  constructor
  · intro hnone i hi
    exact absurd (hOC1 hnone t hlen) hnon
  · intro w hw u hu hune
    have hu' : u < sys.threads.length := by simpa using hu
    have htw : t = w := by
      by_contra htw
      exact hnon (hOC2 w hw t hlen htw)
    by_cases hut : u = t
    · exact absurd (hut.trans htw) hune
    · rw [List.getElem_set_ne (show t ≠ u from fun hh => hut hh.symm)]
      exact hOC2 w hw u hu' hune

theorem c9_ad_set (ctx : RunCtx) (sys : Sys) (t : Nat)
    (hlen : t < sys.threads.length) (th' : Thread)
    (hAD : ∀ i, (hi : i < sys.threads.length) →
      ∀ c ∈ (sys.threads[i]).pending, levelLt c.level ctx.lg.level = false)
    (hsub : ∀ c ∈ th'.pending, c ∈ (sys.threads[t]).pending) :
    ∀ i, (hi : i < (sys.threads.set t th').length) →
      ∀ c ∈ ((sys.threads.set t th')[i]).pending,
        levelLt c.level ctx.lg.level = false := by
  intro i hi c hc
  have hi' : i < sys.threads.length := by simpa using hi
  by_cases hit : i = t
  · subst hit
    rw [List.getElem_set_self] at hc
    exact hAD i hi' c (hsub c hc)
  · rw [List.getElem_set_ne (show t ≠ i from fun hh => hit hh.symm)] at hc
    exact hAD i hi' c hc

theorem c9_pd_set (ctx : RunCtx) (sys : Sys) (t : Nat)
    (hlen : t < sys.threads.length) (th' : Thread)
    (hPD : ∀ i, (hi : i < sys.threads.length) → ∀ line,
      ((sys.threads[i]).phase = .formatted line ∨
       (sys.threads[i]).phase = .rotated line) →
      ∃ cc rest, (sys.threads[i]).pending = cc :: rest ∧
        line = ctx.lineOf cc)
    (hth' : ∀ line, (th'.phase = .formatted line ∨ th'.phase = .rotated line) →
      ∃ cc rest, th'.pending = cc :: rest ∧ line = ctx.lineOf cc) :
    ∀ i, (hi : i < (sys.threads.set t th').length) → ∀ line,
      (((sys.threads.set t th')[i]).phase = .formatted line ∨
       ((sys.threads.set t th')[i]).phase = .rotated line) →
      ∃ cc rest, ((sys.threads.set t th')[i]).pending = cc :: rest ∧
        line = ctx.lineOf cc := by
  intro i hi line hline
  have hi' : i < sys.threads.length := by simpa using hi
  by_cases hit : i = t
  · subst hit
    rw [List.getElem_set_self] at hline ⊢
    exact hth' line hline
  · rw [List.getElem_set_ne (show t ≠ i from fun hh => hit hh.symm)] at hline ⊢
    exact hPD i hi' line hline

theorem c9_cons_set_eq (ctx : RunCtx) (ms allLines : List String)
    (sys : Sys) (t : Nat) (hlen : t < sys.threads.length) (th' : Thread)
    (hperm : (ms ++ sys.threads.flatMap (fun th => th.remLines ctx)).Perm
      allLines)
    (heq : th'.remLines ctx = (sys.threads[t]).remLines ctx) :
    (ms ++ (sys.threads.set t th').flatMap
      (fun th => th.remLines ctx)).Perm allLines := by
  rw [flatMap_set_decomp _ _ _ _ hlen, heq]
  rw [flatMap_take_get_drop (fun th => th.remLines ctx) sys.threads t hlen]
    at hperm
  simpa using hperm

theorem c9_cons_set_write (ctx : RunCtx) (ms allLines : List String)
    (sys : Sys) (t : Nat) (hlen : t < sys.threads.length) (th' : Thread)
    (x : String)
    (hperm : (ms ++ sys.threads.flatMap (fun th => th.remLines ctx)).Perm
      allLines)
    (hold : (sys.threads[t]).remLines ctx = x :: th'.remLines ctx) :
    ((ms ++ [x]) ++ (sys.threads.set t th').flatMap
      (fun th => th.remLines ctx)).Perm allLines := by
  rw [flatMap_set_decomp _ _ _ _ hlen]
  rw [flatMap_take_get_drop (fun th => th.remLines ctx) sys.threads t hlen]
    at hperm
  simp only [List.get_eq_getElem] at hperm
  rw [hold] at hperm
  exact (c9_write_perm ms _ _ _ x).trans hperm

theorem c9_size_lt (init : String) (ms rest allLines : List String)
    (r : Rotator)
    (hbound : (init.length : Int) +
      ((allLines.map String.length).sum : Int) < r.maxSize)
    (hperm : (ms ++ rest).Perm allLines) :
    ((init ++ String.join ms).length : Int) < r.maxSize := by
  have hsum : ((ms ++ rest).map String.length).sum =
      (allLines.map String.length).sum := List.Perm.sum_eq (hperm.map _)
  rw [List.map_append, List.sum_append] at hsum
  have hle : (ms.map String.length).sum ≤ (allLines.map String.length).sum := by
    omega
  rw [String.length_append, string_length_join]
  omega

theorem c9_fs_write (fs0 : FS) (init : String) (ms : List String) (h : Nat)
    (x : String) (h5 : h ∈ fs0.openHandles) :
    (FS.writeString { fs0 with base := some (init ++ String.join ms) } h x).1 =
      { fs0 with base := some (init ++ String.join (ms ++ [x])) } := by
  unfold FS.writeString
  rw [if_pos (show h ∈ ({ fs0 with
    base := some (init ++ String.join ms) } : FS).openHandles from h5)]
  simp [string_join_append_singleton, String.append_assoc]

end Golog

namespace Golog

theorem c9_threadStep_preserves (ctx : RunCtx) (fs0 : FS) (init : String)
    (allLines : List String) (h : Nat) (r : Rotator) (sys : Sys) (t : Nat)
    (hlg1 : ctx.lg.logToFile = true) (hlg2 : ctx.lg.file = some h)
    (hlg3 : ctx.lg.rotator = some r) (h5 : h ∈ fs0.openHandles)
    (h6 : fs0.statFails = false)
    (hbound : (init.length : Int) +
      ((allLines.map String.length).sum : Int) < r.maxSize)
    (hInv : C9Inv ctx fs0 init allLines sys) :
    ∃ sys', threadStep ctx sys t = some sys' ∧
      C9Inv ctx fs0 init allLines sys' := by
  obtain ⟨ms, hfs, hperm, hOC1, hOC2, hAD, hPD⟩ := hInv
  cases hth : sys.threads[t]? with
  | none =>
    refine ⟨sys, ?_, ms, hfs, hperm, hOC1, hOC2, hAD, hPD⟩
    unfold threadStep
    rw [hth]
  | some th =>
    obtain ⟨hlen, hval⟩ := List.getElem?_eq_some_iff.mp hth
    obtain ⟨pend, ph⟩ := th
    cases ph with
    | idle =>
      cases hpend : pend with
      | nil =>
        refine ⟨sys, ?_, ms, hfs, hperm, hOC1, hOC2, hAD, hPD⟩
        subst hpend
        unfold threadStep
        rw [hth]
      | cons c rest =>
        subst hpend
        have hcadm : levelLt c.level ctx.lg.level = false := by
          have := hAD t hlen c
          rw [hval] at this
          exact this (List.mem_cons_self c rest)
        cases how : sys.owner with
        | some w =>
          refine ⟨sys, ?_, ms, hfs, hperm, hOC1, hOC2, hAD, hPD⟩
          unfold threadStep
          simp only [hth, hcadm, how, Bool.false_eq_true, if_false]
        | none =>
          refine ⟨⟨sys.fs, some t,
            sys.threads.set t ⟨c :: rest, .locked⟩⟩,
            ?_, ms, hfs, ?_, ?_, ?_, ?_, ?_⟩
          · unfold threadStep
            simp only [hth, hcadm, how, Bool.false_eq_true, if_false,
              Sys.setThread]
          · exact c9_cons_set_eq ctx ms allLines sys t hlen _ hperm
              (by rw [hval]; rfl)
          · intro hnone
            simp at hnone
          · intro w hw u hu hune
            have ht : t = w := by simpa using hw
            have hu' : u < sys.threads.length := by simpa using hu
            show ((sys.threads.set t ⟨c :: rest, .locked⟩)[u]).phase = .idle
            rw [List.getElem_set_ne
              (show t ≠ u from fun hh => hune (hh.symm.trans ht))]
            exact hOC1 how u hu'
          · exact c9_ad_set ctx sys t hlen _ hAD
              (by intro cc hcc; rw [hval]; exact hcc)
          · refine c9_pd_set ctx sys t hlen _ hPD ?_
            intro line hline
            rcases hline with hl | hl <;> exact absurd hl (by simp)
    | locked =>
      cases hpend : pend with
      | nil =>
        refine ⟨sys, ?_, ms, hfs, hperm, hOC1, hOC2, hAD, hPD⟩
        subst hpend
        unfold threadStep
        rw [hth]
      | cons c rest =>
        subst hpend
        have hnon : (sys.threads[t]).phase ≠ .idle := by
          rw [hval]
          simp
        obtain ⟨hoc1, hoc2⟩ := c9_ocs_set_nonidle sys t hlen
          ⟨c :: rest, .formatted (ctx.lineOf c)⟩ hOC1 hOC2 hnon
        refine ⟨⟨sys.fs, sys.owner,
          sys.threads.set t ⟨c :: rest, .formatted (ctx.lineOf c)⟩⟩,
          ?_, ms, hfs, ?_, hoc1, hoc2, ?_, ?_⟩
        · unfold threadStep
          simp only [hth, Sys.setThread]
        · exact c9_cons_set_eq ctx ms allLines sys t hlen _ hperm
            (by rw [hval]; rfl)
        · exact c9_ad_set ctx sys t hlen _ hAD
            (by intro cc hcc; rw [hval]; exact hcc)
        · refine c9_pd_set ctx sys t hlen _ hPD ?_
          intro line hline
          rcases hline with hl | hl
          · have hli : ctx.lineOf c = line := by simpa using hl
            exact ⟨c, rest, rfl, hli.symm⟩
          · exact absurd hl (by simp)
    | formatted line =>
      have hnon : (sys.threads[t]).phase ≠ .idle := by
        rw [hval]
        simp
      obtain ⟨hoc1, hoc2⟩ := c9_ocs_set_nonidle sys t hlen
        ⟨pend, .rotated line⟩ hOC1 hOC2 hnon
      have hsz : ((init ++ String.join ms).length : Int) < r.maxSize :=
        c9_size_lt init ms _ allLines r hbound hperm
      have hrotEq : r.RotateIfNeeded ctx.env ctx.now sys.fs h =
          some (sys.fs, .ok ()) := by
        refine rotateIfNeeded_noop_of_small r ctx.env ctx.now sys.fs h
          (init ++ String.join ms) ?_ ?_ ?_ hsz
        · rw [hfs]
          exact h6
        · rw [hfs]
          exact h5
        · rw [hfs]
      refine ⟨⟨sys.fs, sys.owner, sys.threads.set t ⟨pend, .rotated line⟩⟩,
        ?_, ms, hfs, ?_, hoc1, hoc2, ?_, ?_⟩
      · unfold threadStep
        simp only [hth, hlg1, hlg2, hlg3, hrotEq, Sys.setThread, if_true]
      · exact c9_cons_set_eq ctx ms allLines sys t hlen _ hperm
          (by rw [hval]; rfl)
      · exact c9_ad_set ctx sys t hlen _ hAD
          (by intro cc hcc; rw [hval]; exact hcc)
      · refine c9_pd_set ctx sys t hlen _ hPD ?_
        intro line2 hline
        have hpd := hPD t hlen line2
        rw [hval] at hpd
        rcases hline with hl | hl
        · exact absurd hl (by simp)
        · have hl2 : line = line2 := by simpa using hl
          subst hl2
          have := hpd (Or.inl rfl)
          simpa using this
    | rotated line =>
      have hnon : (sys.threads[t]).phase ≠ .idle := by
        rw [hval]
        simp
      obtain ⟨hoc1, hoc2⟩ := c9_ocs_set_nonidle sys t hlen
        ⟨pend, .written line⟩ hOC1 hOC2 hnon
      have hpd := hPD t hlen line
      rw [hval] at hpd
      obtain ⟨cc, rest, hpendcc, hlinecc⟩ := hpd (Or.inr rfl)
      simp only at hpendcc
      have hwEq : (sys.fs.writeString h line).1 =
          { fs0 with base := some (init ++ String.join (ms ++ [line])) } := by
        rw [hfs]
        exact c9_fs_write fs0 init ms h line h5
      refine ⟨⟨(sys.fs.writeString h line).1, sys.owner,
        sys.threads.set t ⟨pend, .written line⟩⟩,
        ?_, ms ++ [line], hwEq, ?_, hoc1, hoc2, ?_, ?_⟩
      · unfold threadStep
        simp only [hth, hlg1, hlg2, Sys.setThread, if_true]
      · refine c9_cons_set_write ctx ms allLines sys t hlen
          ⟨pend, .written line⟩ line hperm ?_
        rw [hval]
        show Thread.remLines ⟨pend, .rotated line⟩ ctx =
          line :: Thread.remLines ⟨pend, .written line⟩ ctx
        rw [Thread.remLines, Thread.remLines]
        simp only [hpendcc]
        rw [hlinecc]
        rfl
      · exact c9_ad_set ctx sys t hlen _ hAD
          (by intro cc2 hcc2; rw [hval]; exact hcc2)
      · refine c9_pd_set ctx sys t hlen _ hPD ?_
        intro line2 hline
        rcases hline with hl | hl <;> exact absurd hl (by simp)
    | written line =>
      have hownt : sys.owner = some t := by
        cases how : sys.owner with
        | none =>
          have := hOC1 how t hlen
          rw [hval] at this
          simp at this
        | some w =>
          by_cases htw : t = w
          · rw [htw]
          · have := hOC2 w how t hlen htw
            rw [hval] at this
            simp at this
      refine ⟨⟨sys.fs, none, sys.threads.set t ⟨pend.tail, .idle⟩⟩,
        ?_, ms, hfs, ?_, ?_, ?_, ?_, ?_⟩
      · unfold threadStep
        simp only [hth, Sys.setThread]
      · refine c9_cons_set_eq ctx ms allLines sys t hlen _ hperm ?_
        rw [hval]
        show Thread.remLines ⟨pend.tail, .idle⟩ ctx =
          Thread.remLines ⟨pend, .written line⟩ ctx
        rw [Thread.remLines, Thread.remLines]
      · intro _ i hi
        have hi' : i < sys.threads.length := by simpa using hi
        by_cases hit : i = t
        · subst hit
          show ((sys.threads.set i ⟨pend.tail, .idle⟩)[i]).phase = .idle
          rw [List.getElem_set_self]
        · show ((sys.threads.set t ⟨pend.tail, .idle⟩)[i]).phase = .idle
          rw [List.getElem_set_ne (show t ≠ i from fun hh => hit hh.symm)]
          exact hOC2 t hownt i hi' hit
      · intro w hw
        simp at hw
      · refine c9_ad_set ctx sys t hlen _ hAD ?_
        intro cc hcc
        rw [hval]
        exact List.mem_of_mem_tail hcc
      · refine c9_pd_set ctx sys t hlen _ hPD ?_
        intro line2 hline
        rcases hline with hl | hl <;> exact absurd hl (by simp)

end Golog

namespace Golog

theorem c9_runSched_inv (ctx : RunCtx) (fs0 : FS) (init : String)
    (allLines : List String) (h : Nat) (r : Rotator)
    (hlg1 : ctx.lg.logToFile = true) (hlg2 : ctx.lg.file = some h)
    (hlg3 : ctx.lg.rotator = some r) (h5 : h ∈ fs0.openHandles)
    (h6 : fs0.statFails = false)
    (hbound : (init.length : Int) +
      ((allLines.map String.length).sum : Int) < r.maxSize) :
    ∀ (sched : List Nat) (sys : Sys), C9Inv ctx fs0 init allLines sys →
      ∀ sysF, runSched ctx sys sched = some sysF →
        C9Inv ctx fs0 init allLines sysF := by
  intro sched
  induction sched with
  | nil =>
    intro sys hInv sysF hrun
    simp only [runSched, Option.some.injEq] at hrun
    exact hrun ▸ hInv
  | cons t rest ih =>
    intro sys hInv sysF hrun
    obtain ⟨sys1, hstep, hInv1⟩ := c9_threadStep_preserves ctx fs0 init
      allLines h r sys t hlg1 hlg2 hlg3 h5 h6 hbound hInv
    rw [runSched, hstep] at hrun
    exact ih sys1 hInv1 sysF hrun

theorem remLines_of_finished (ctx : RunCtx) (th : Thread)
    (hp : th.pending = []) (hph : th.phase = .idle) :
    th.remLines ctx = [] := by
  obtain ⟨p2, q2⟩ := th
  have hp2 : p2 = [] := hp
  have hq2 : q2 = .idle := hph
  subst hp2
  subst hq2
  rfl

theorem flatMap_congr_mem {α β : Type} (l : List α) (f g : α → List β)
    (hfg : ∀ x ∈ l, f x = g x) : l.flatMap f = l.flatMap g := by
  induction l with
  | nil => rfl
  | cons x xs ih =>
    rw [List.flatMap_cons, List.flatMap_cons, hfg x (by simp),
      ih (fun y hy => hfg y (List.mem_cons_of_mem _ hy))]

/-- C9 amended: the single mutex serializes the whole
format → rotate-if-needed → write sequence: in every interleaved run at
most one caller is ever inside the critical section; and provided no
rotation triggers during the run (total bytes stay under the
threshold), a finished run of the M callers leaves the file holding the
initial content followed by a permutation of all M×K complete lines —
exactly M×K lines, none torn or interleaved. (Without that proviso the
claim fails: a triggered rotation closes the shared handle under the
logger and the subsequent writes are lost — see the rotation-handle
bug.) -/
theorem golog_c9_lock_serializes (ctx : RunCtx) (fs0 : FS) (init : String)
    (h : Nat) (r : Rotator) (sys0 : Sys)
    (hlg1 : ctx.lg.logToFile = true) (hlg2 : ctx.lg.file = some h)
    (hlg3 : ctx.lg.rotator = some r)
    (h5 : h ∈ fs0.openHandles) (h6 : fs0.statFails = false)
    (hfs : sys0.fs = fs0) (hbase : fs0.base = some init)
    (hown : sys0.owner = none)
    (hidle : ∀ i, (hi : i < sys0.threads.length) →
      (sys0.threads[i]).phase = .idle)
    (hadm : ∀ i, (hi : i < sys0.threads.length) →
      ∀ c ∈ (sys0.threads[i]).pending, levelLt c.level ctx.lg.level = false)
    (hbound : (init.length : Int) +
      (((sys0.threads.flatMap (fun th => ctx.linesOf th.pending)).map
        String.length).sum : Int) < r.maxSize) :
    ∀ sched sysF, runSched ctx sys0 sched = some sysF →
      sysF.mutualExclusion ∧
      (sysF.finished →
        ∃ ms, ms.Perm (sys0.threads.flatMap
            (fun th => ctx.linesOf th.pending)) ∧
          sysF.fs = { fs0 with base := some (init ++ String.join ms) } ∧
          ms.length =
            (sys0.threads.map (fun th => th.pending.length)).sum) := by
  intro sched sysF hrun
  have hInv0 : C9Inv ctx fs0 init
      (sys0.threads.flatMap (fun th => ctx.linesOf th.pending)) sys0 := by
    refine ⟨[], ?_, ?_, fun _ => hidle, ?_, hadm, ?_⟩
    · rw [hfs]
      have hemp : init ++ String.join [] = init := by
        show init ++ "" = init
        have := congrArg String.mk
          (List.append_nil init.data)
        exact this
      rw [hemp, ← hbase]
    · rw [List.nil_append]
      have hcong : sys0.threads.flatMap (fun th => th.remLines ctx) =
          sys0.threads.flatMap (fun th => ctx.linesOf th.pending) := by
        refine flatMap_congr_mem _ _ _ ?_
        intro th hth
        obtain ⟨i, hi, hei⟩ := List.mem_iff_getElem.mp hth
        have hph := hidle i hi
        rw [hei] at hph
        obtain ⟨p2, q2⟩ := th
        have hq2 : q2 = .idle := hph
        subst hq2
        rfl
      rw [hcong]
    · intro w hw
      rw [hown] at hw
      cases hw
    · intro i hi line hline
      have := hidle i hi
      rcases hline with hl | hl <;> rw [this] at hl <;> cases hl
  have hInvF := c9_runSched_inv ctx fs0 init
    (sys0.threads.flatMap (fun th => ctx.linesOf th.pending)) h r
    hlg1 hlg2 hlg3 h5 h6 hbound sched sys0 hInv0 sysF hrun
  obtain ⟨ms, hfsF, hpermF, hOC1, hOC2, hAD, hPD⟩ := hInvF
  constructor
  · exact c9_mutualExclusion_of_parts sysF hOC1 hOC2
  · intro hfin
    have hflat : sysF.threads.flatMap (fun th => th.remLines ctx) = [] := by
      rw [List.flatMap_eq_nil_iff]
      intro th hth
      obtain ⟨hp, hph⟩ := hfin th hth
      exact remLines_of_finished ctx th hp hph
    rw [hflat, List.append_nil] at hpermF
    refine ⟨ms, hpermF, hfsF, ?_⟩
    have hlen := hpermF.length_eq
    rw [hlen]
    rw [List.length_flatMap]
    congr 1
    refine List.map_congr_left ?_
    intro th _
    show (th.pending.map ctx.lineOf).length = th.pending.length
    rw [List.length_map]

end Golog

namespace Golog

/-- Counterexample to C9 as stated: one caller issuing one admitted
call (M = K = 1) against a configuration in which the rotation check
triggers during that call; the run finishes, yet the file holds zero
complete lines instead of M×K = 1 — the only line was written to the
handle that the rotation had just closed and was lost. -/
theorem golog_c9_counterexample :
    runSched ⟨⟨.INFO, false, some 1, "a", true, false,
        some (NewRotator "a" 0 1 false)⟩, GzEnv.clean, 7⟩
      ⟨⟨some "", [], [1], 2, false⟩, none,
        [⟨[⟨.INFO, "hello", []⟩], .idle⟩]⟩
      [0, 0, 0, 0, 0] =
      some ⟨⟨some "", [⟨7, false, "", 7⟩], [2], 3, false⟩, none,
        [⟨[], .idle⟩]⟩ ∧
    Sys.finished ⟨⟨some "", [⟨7, false, "", 7⟩], [2], 3, false⟩, none,
      [⟨[], .idle⟩]⟩ := by
  constructor
  · decide
  · intro th hth
    rw [List.mem_singleton.mp hth]
    exact ⟨rfl, rfl⟩

/-- Witness for C9's amended statement: two callers with one admitted
call each, interleaved by the scheduler; the finished run is mutually
exclusive throughout and the file holds both complete lines. -/
theorem golog_c9_witness :
    Sys.mutualExclusion ⟨⟨some "[7] INFO alpha\n[7] ERROR beta\n", [], [1],
      2, false⟩, none, [⟨[], .idle⟩, ⟨[], .idle⟩]⟩ ∧
    (Sys.finished ⟨⟨some "[7] INFO alpha\n[7] ERROR beta\n", [], [1], 2,
        false⟩, none, [⟨[], .idle⟩, ⟨[], .idle⟩]⟩ →
      ∃ ms, ms.Perm (([⟨[⟨.INFO, "alpha", []⟩], .idle⟩,
          ⟨[⟨.ERROR, "beta", []⟩], .idle⟩] : List Thread).flatMap
          (fun th => RunCtx.linesOf ⟨⟨.INFO, false, some 1, "a", true,
            false, some (NewRotator "a" 100 3 false)⟩, GzEnv.clean, 7⟩
            th.pending)) ∧
        (⟨some "[7] INFO alpha\n[7] ERROR beta\n", [], [1], 2, false⟩ :
            FS) =
          { (⟨some "", [], [1], 2, false⟩ : FS) with
            base := some ("" ++ String.join ms) } ∧
        ms.length = (([⟨[⟨.INFO, "alpha", []⟩], .idle⟩,
          ⟨[⟨.ERROR, "beta", []⟩], .idle⟩] : List Thread).map
          (fun th => th.pending.length)).sum) :=
  golog_c9_lock_serializes
    ⟨⟨.INFO, false, some 1, "a", true, false,
      some (NewRotator "a" 100 3 false)⟩, GzEnv.clean, 7⟩
    ⟨some "", [], [1], 2, false⟩ "" 1 (NewRotator "a" 100 3 false)
    ⟨⟨some "", [], [1], 2, false⟩, none,
      [⟨[⟨.INFO, "alpha", []⟩], .idle⟩, ⟨[⟨.ERROR, "beta", []⟩], .idle⟩]⟩
    rfl rfl rfl (by decide) rfl rfl rfl rfl (by decide) (by decide)
    (by decide) [0, 1, 0, 1, 0, 0, 0, 1, 1, 1, 1, 1]
    ⟨⟨some "[7] INFO alpha\n[7] ERROR beta\n", [], [1], 2, false⟩, none,
      [⟨[], .idle⟩, ⟨[], .idle⟩]⟩ (by decide)

end Golog
